import Mathlib

/-!
Verification development for the URL-Manager HTTP redirect router.

The repository contains two variants of the same program:
- `main.go` ("flat variant"): routes are kept in a flat list and matched by a
  linear scan (`compileRoute`, `handleMainRequest`).
- a second variant ("grouped variant", the file with the composite source
  fields): routes are grouped by raw pattern string into a flat map of
  full-URL patterns (`urlRoutes`) plus a scheme→host→port→path→query tree
  (`compositeRoutes`); matching walks the groups (`loadRoute`,
  `findBestRoute`).

The Go regular-expression and net/url library calls are external to the
repository; they are represented by a `Regexp` record of their observable
operations, by `goExpandAux` (the documented semantics of
`Regexp.Expand`/`ReplaceAllString` templates) and by `parseRequestURIOk`
(the Go 1.16 `net/url.ParseRequestURI` success predicate), each translated
from the library's documented behaviour.  Concrete `Regexp` values for the
handful of literal patterns used in the scenarios are given their actual
RE2 semantics.
-/

/-! ## Character and list helpers -/

/-- The dollar character used by template variable references. -/
def dollarChar : Char := '$'

/-- Opening curly brace (written via its code point). -/
def lbraceChar : Char := Char.ofNat 123

/-- Closing curly brace (written via its code point). -/
def rbraceChar : Char := Char.ofNat 125

/-- Substring occurrence test on character lists (Go `strings.Contains`). -/
def occursIn (p : List Char) : List Char → Bool
  | [] => p.isEmpty
  | c :: rest => p.isPrefixOf (c :: rest) || occursIn p rest

/-- Go `strings.HasPrefix` on strings. -/
def strStartsWith (s p : String) : Bool := p.data.isPrefixOf s.data

/-- Last index of a character in a list (Go `strings.LastIndex` for a
one-character needle). -/
def lastIdxOf (c : Char) : List Char → Option Nat
  | [] => none
  | x :: rest =>
    match lastIdxOf c rest with
    | some i => some (i + 1)
    | none => if x == c then some 0 else none

/-! ## Regular expression oracle

Go's `regexp` package is not part of this repository; a compiled regular
expression is represented by its observable operations.  Concrete values
(below, `reEmptyPat` etc.) give the actual RE2 semantics of the concrete
patterns appearing in the verified scenarios. -/

/-- Observable behaviour of a compiled Go regular expression:
`MatchString`, `FindStringSubmatch` (`none` = Go `nil`, non-participating
groups captured as `""` as Go reports them), `SubexpNames`, and
`ReplaceAllString`. -/
structure Regexp where
  matchString : String → Bool
  findStringSubmatch : String → Option (List String)
  subexpNames : List String
  replaceAllString : String → String → String

instance : Inhabited Regexp :=
  ⟨⟨fun _ => false, fun _ => none, [], fun s _ => s⟩⟩

/-! ## Go template expansion (`Regexp.Expand` semantics)

`ReplaceAllString`'s replacement template interprets `$name` and
`${name}` references; a reference to an out-of-range index or unknown
name is replaced by the empty string; `$$` is a literal `$`; a malformed
reference leaves the `$` as raw text.  Translated from the documented
behaviour of Go's `regexp.Regexp.Expand` (library code, not in src). -/

/-- Characters allowed in a template variable name (letters, digits,
underscore; ASCII approximation of Go's `unicode.IsLetter`/`IsDigit`). -/
def wordCharGo (c : Char) : Bool :=
  c.isAlpha || c.isDigit || c == '_'

/-- Number parsing of a capture reference name, mirroring Go `extract`:
digits only, a `num >= 1e8` guard, no leading zeros. -/
def goCapNumAux : List Char → Nat → Option Nat
  | [], n => some n
  | c :: rest, n =>
    if c.isDigit && n < 100000000 then goCapNumAux rest (n * 10 + (c.toNat - 48))
    else none

/-- Decide whether a reference name denotes a capture index (Go `extract`). -/
def goCapNum (name : List Char) : Option Nat :=
  match name with
  | [] => none
  | c0 :: rest =>
    match goCapNumAux (c0 :: rest) 0 with
    | none => none
    | some n => if c0 == '0' && !rest.isEmpty then none else some n

/-- Value of a capture reference: numbered references index the submatch
list, named references search `SubexpNames`; missing values give `""`. -/
def goCapValue (caps names : List String) (name : List Char) : List Char :=
  match goCapNum name with
  | some n => (caps.getD n "").data
  | none =>
    match names.enum.find? (fun p => p.2.data == name) with
    | some p => (caps.getD p.1 "").data
    | none => []

/-- Expansion scanner over the template characters (Go `Regexp.expand`). -/
def goExpandAux (caps names : List String) : List Char → List Char
  | [] => []
  | [c] => if c != dollarChar then [c] else [dollarChar]
  | c :: c2 :: rest2 =>
    if c != dollarChar then c :: goExpandAux caps names (c2 :: rest2)
    else if c2 == dollarChar then dollarChar :: goExpandAux caps names rest2
    else if c2 == lbraceChar then
      let name := rest2.takeWhile wordCharGo
      if name.isEmpty then dollarChar :: goExpandAux caps names (c2 :: rest2)
      else
        match rest2.drop name.length with
        | c3 :: _ =>
          if c3 == rbraceChar then
            goCapValue caps names name ++
              goExpandAux caps names (rest2.drop (name.length + 1))
          else dollarChar :: goExpandAux caps names (c2 :: rest2)
        | [] => dollarChar :: goExpandAux caps names (c2 :: rest2)
    else
      if ((c2 :: rest2).takeWhile wordCharGo).isEmpty then
        dollarChar :: goExpandAux caps names (c2 :: rest2)
      else
        goCapValue caps names ((c2 :: rest2).takeWhile wordCharGo) ++
          goExpandAux caps names
            ((c2 :: rest2).drop ((c2 :: rest2).takeWhile wordCharGo).length)
termination_by l => l.length
decreasing_by
  all_goals simp [List.length_drop]
  all_goals omega

/-- Expand a template string against captures and names. -/
def goExpandStr (tmpl : String) (caps names : List String) : String :=
  ⟨goExpandAux caps names tmpl.data⟩

/-! ## Go 1.16 `net/url.ParseRequestURI` success predicate

The repository validates a computed destination with
`url.ParseRequestURI`; the library is not part of src.  `parseRequestURIOk`
is translated from Go 1.16 `net/url.parse(rawURL, viaRequest := true)`
and its helpers. -/

/-- Go `stringContainsCTLByte` (ASCII control characters). -/
def isCTLByte (c : Char) : Bool := c.toNat < 0x20 || c.toNat == 0x7f

/-- Hex digit value, `none` when not a hex digit (Go `ishex`/`unhex`). -/
def hexVal (c : Char) : Option Nat :=
  if c.isDigit then some (c.toNat - 48)
  else if 'a' ≤ c && c ≤ 'f' then some (c.toNat - 87)
  else if 'A' ≤ c && c ≤ 'F' then some (c.toNat - 55)
  else none

/-- Characters the host component accepts unescaped: unreserved characters
and sub-delims per Go `shouldEscape(c, encodeHost)`; bytes ≥ 0x80 pass the
`c < 0x80` guard in `unescape`. -/
def hostCharOk (c : Char) : Bool :=
  c.isAlpha || c.isDigit ||
  c == '!' || c == '$' || c == '&' || c == '\'' || c == '(' || c == ')' ||
  c == '*' || c == '+' || c == ',' || c == ';' || c == '=' || c == ':' ||
  c == '[' || c == ']' || c == '<' || c == '>' || c == '"' ||
  c == '-' || c == '_' || c == '.' || c == '~' ||
  c.toNat ≥ 0x80

/-- Unescape check for the host component (Go `unescape(s, encodeHost)`):
percent escapes must be two hex digits and, in a host, may only encode
non-ASCII bytes except for `%25`; other characters must be allowed. -/
def hostUnescapeOk : List Char → Bool
  | [] => true
  | '%' :: c1 :: c2 :: rest =>
    (match hexVal c1, hexVal c2 with
     | some v1, some _ => decide (v1 ≥ 8) || (c1 == '2' && c2 == '5')
     | _, _ => false) && hostUnescapeOk rest
  | '%' :: _ => false
  | c :: rest => hostCharOk c && hostUnescapeOk rest

/-- Unescape check for path-like components (Go `unescape` in a non-host
mode): only percent escapes can fail. -/
def escapesOk : List Char → Bool
  | [] => true
  | '%' :: c1 :: c2 :: rest => (hexVal c1).isSome && (hexVal c2).isSome && escapesOk rest
  | '%' :: _ => false
  | _ :: rest => escapesOk rest

/-- Go `validOptionalPort`: empty, or `:` followed by decimal digits. -/
def validOptionalPort : List Char → Bool
  | [] => true
  | ':' :: digits => digits.all (·.isDigit)
  | _ => false

/-- Go `validUserinfo`: unreserved characters, sub-delims, `:`, `%`, `@`. -/
def validUserinfoChar (c : Char) : Bool :=
  c.isAlpha || c.isDigit ||
  c == '-' || c == '.' || c == '_' || c == ':' || c == '~' || c == '!' ||
  c == '$' || c == '&' || c == '\'' || c == '(' || c == ')' || c == '*' ||
  c == '+' || c == ',' || c == ';' || c == '=' || c == '%' || c == '@'

/-- Go `parseHost` success predicate. -/
def parseHostOk (host : List Char) : Bool :=
  match host with
  | '[' :: _ =>
    match lastIdxOf ']' host with
    | none => false
    | some i =>
      validOptionalPort (host.drop (i + 1)) && hostUnescapeOk (host.take (i + 1))
  | _ =>
    (match lastIdxOf ':' host with
     | some i => validOptionalPort (host.drop i)
     | none => true) && hostUnescapeOk host

/-- Go `parseAuthority` success predicate. -/
def parseAuthorityOk (authority : List Char) : Bool :=
  match lastIdxOf '@' authority with
  | none => parseHostOk authority
  | some i =>
    parseHostOk (authority.drop (i + 1)) &&
    (authority.take i).all validUserinfoChar &&
    escapesOk (authority.take i)

/-- Go `getScheme`: returns `(scheme, rest)`; a missing scheme yields
`([], original)`; a leading `:` is the "missing protocol scheme" error. -/
def getSchemeAux (orig : List Char) (acc : List Char) : List Char → Option (List Char × List Char)
  | [] => some ([], orig)
  | c :: rest =>
    if c.isAlpha then getSchemeAux orig (acc ++ [c]) rest
    else if c.isDigit || c == '+' || c == '-' || c == '.' then
      if acc.isEmpty then some ([], orig) else getSchemeAux orig (acc ++ [c]) rest
    else if c == ':' then
      if acc.isEmpty then none else some (acc, rest)
    else some ([], orig)

/-- Go 1.16 `url.ParseRequestURI(s)` succeeds.  Follows
`parse(rawURL, viaRequest := true)`. -/
def parseRequestURIOk (s : String) : Bool :=
  let l := s.data
  if l.any isCTLByte then false
  else if l.isEmpty then false
  else if l == ['*'] then true
  else
    match getSchemeAux l [] l with
    | none => false
    | some (scheme, rest0) =>
      -- query split: in both Go branches `rest` becomes the part before
      -- the first `?`
      let rest := rest0.takeWhile (· != '?')
      if !(['/'].isPrefixOf rest) then
        -- rootless path: opaque URL, accepted when a scheme is present;
        -- otherwise "invalid URI for request" (viaRequest)
        !scheme.isEmpty
      else
        -- with viaRequest the authority is parsed when a scheme is
        -- present and rest starts with //
        if !scheme.isEmpty && ['/', '/'].isPrefixOf rest then
          let afterSlashes := rest.drop 2
          let authority := afterSlashes.takeWhile (· != '/')
          let rest2 := afterSlashes.drop authority.length
          parseAuthorityOk authority && escapesOk rest2
        else
          escapesOk rest

/-! ## Shared validation pieces -/

/-- Default redirect status (`defaultRedirectStatus = 302`). -/
def defaultRedirectStatus : Int := 302

/-- Characters of the route-ID pattern `^[0-9a-zA-Z-_]+$`. -/
def routeIDChar (c : Char) : Bool :=
  c.isDigit || c.isAlpha || c == '-' || c == '_'

/-- Go check `route.ID == "" || !compiledRouteIDPattern.MatchString(route.ID)`:
the whole ID is non-empty and every character is in the class. -/
def routeIDOk (s : String) : Bool :=
  !s.data.isEmpty && s.data.all routeIDChar

/-- Error messages of the two loaders (the regexp-compile messages carry a
library error suffix in Go, elided here). -/
def errIllegalID : String := "Route ID contains illegal characters"

def errMissingSourceURL : String := "Missing source URL"

def errMissingDest : String := "Missing destination URL"

def errBadStatus : String := "Invalid redirect status value"

def errMissingSource : String := "Missing source URL or composite"

def errAmbiguousSource : String :=
  "Route can't contain both a source URL and any of the source composite fields"

def errURLCompile : String := "Route source URL regexp won't compile."

def errSchemeCompile : String := "Route source scheme regexp won't compile."

def errHostCompile : String := "Route source host regexp won't compile."

def errPortCompile : String := "Route source port regexp won't compile."

def errPathCompile : String := "Route source path regexp won't compile."

def errQueryCompile : String := "Route source query regexp won't compile."

/-! ## Flat variant (`main.go`) -/

/-- Raw route record of the flat variant. -/
structure route where
  ID : String
  SourceURL : String
  DestinationURL : String
  RedirectStatus : Int
  Priority : Int
deriving DecidableEq, Inhabited, Repr

/-- Compiled route of the flat variant (embeds the raw record). -/
structure compiledRoute extends route where
  CompiledSourceURL : Regexp

instance : Inhabited compiledRoute := ⟨⟨default, default⟩⟩

/-- The flat variant's `compileRoute`, with the regexp compiler as the
`creg` oracle (`regexp.Compile`). -/
def compileRoute (creg : String → Option Regexp) (rawRoute : route) :
    Except String compiledRoute :=
  if !routeIDOk rawRoute.ID then .error errIllegalID
  else if rawRoute.SourceURL == "" then .error errMissingSourceURL
  else
    match creg rawRoute.SourceURL with
    | none => .error errURLCompile
    | some re =>
      if rawRoute.DestinationURL == "" then .error errMissingDest
      else if rawRoute.RedirectStatus == 0 then
        .ok ⟨{ rawRoute with RedirectStatus := defaultRedirectStatus }, re⟩
      else if 301 ≤ rawRoute.RedirectStatus && rawRoute.RedirectStatus ≤ 308 then
        .ok ⟨rawRoute, re⟩
      else .error errBadStatus

/-- Linear best-match scan of `handleMainRequest` (flat variant):
`bestRouteID` starts at `-1` (`none`) and is replaced only on a strictly
greater priority. -/
def findBestAux (all : List compiledRoute) (url : String) :
    Nat → List compiledRoute → Option Nat → Option Nat
  | _, [], best => best
  | i, r :: rest, best =>
    findBestAux all url (i + 1) rest
      (if r.CompiledSourceURL.matchString url then
        match best with
        | none => some i
        | some b =>
          if r.toroute.Priority > (all.getD b default).toroute.Priority then some i
          else some b
      else best)

/-- Index of the best-matching route in the flat variant, `none` = `-1`. -/
def findBestRouteID (routes : List compiledRoute) (url : String) : Option Nat :=
  findBestAux routes url 0 routes none

/-- Observable outcome of a request (404, 400 with the route id, or a
redirect with destination and status). -/
inductive Outcome where
  | notFound
  | malformed (routeID : String)
  | redirect (dest : String) (status : Int)
deriving DecidableEq, Repr

/-- Flat variant's `handleMainRequest` after the source URL is built:
linear scan, `ReplaceAllString` destination, `ParseRequestURI` check,
redirect with the route's status. -/
def handleFlat (routes : List compiledRoute) (sourceURL : String) : Outcome :=
  match findBestRouteID routes sourceURL with
  | none => .notFound
  | some b =>
    let r := routes.getD b default
    let destinationURL := r.CompiledSourceURL.replaceAllString sourceURL r.toroute.DestinationURL
    if parseRequestURIOk destinationURL then .redirect destinationURL r.toroute.RedirectStatus
    else .malformed r.toroute.ID

/-! ## Grouped variant -/

/-- Raw route record of the grouped variant.  `uid` models the identity of
the route (its position in the configuration list; Go routes are distinct
pointers).  The compiled-pattern pointer fields are represented by the
groups holding the route together with the compile oracle. -/
structure Route where
  uid : Nat
  ID : String
  Disabled : Bool
  SourceURL : String
  SourceScheme : String
  SourceHost : String
  SourcePort : String
  SourcePath : String
  SourceQuery : String
  DestinationURL : String
  RedirectStatus : Int
  Priority : Int
deriving DecidableEq, Repr

/-- Leaf group of the composite tree (shared query pattern). -/
structure queryRouteGroup where
  compiledQuery : Regexp
  routes : List Route

/-- Path-level group of the composite tree. -/
structure pathRouteGroup where
  compiledPath : Regexp
  queryRoutes : List (String × queryRouteGroup)

/-- Port-level group of the composite tree. -/
structure portRouteGroup where
  compiledPort : Regexp
  pathRoutes : List (String × pathRouteGroup)

/-- Host-level group of the composite tree. -/
structure hostRouteGroup where
  compiledHost : Regexp
  portRoutes : List (String × portRouteGroup)

/-- Scheme-level group of the composite tree. -/
structure schemeRouteGroup where
  compiledScheme : Regexp
  hostRoutes : List (String × hostRouteGroup)

/-- Group of URL-form routes sharing one full-URL pattern. -/
structure urlRouteGroup where
  compiledURL : Regexp
  routes : List Route

/-- The two global route indexes (`urlRoutes` and `compositeRoutes`).
Go maps are modelled as association lists keyed by the raw pattern
strings; list order records insertion order and map enumeration order is
quantified separately where it matters. -/
structure LoadState where
  urlRoutes : List (String × urlRouteGroup)
  compositeRoutes : List (String × schemeRouteGroup)

/-- Map lookup. -/
def alGet (m : List (String × α)) (k : String) : Option α :=
  (m.find? (fun kg => kg.1 == k)).map (·.2)

/-- Map store (replace the binding or append a new one). -/
def alInsert : List (String × α) → String → α → List (String × α)
  | [], k, v => [(k, v)]
  | kg :: rest, k, v => if kg.1 == k then (kg.1, v) :: rest else kg :: alInsert rest k v

/-- Go `route.SourceURL != ""`. -/
def hasSourceURL (r : Route) : Bool := r.SourceURL != ""

/-- Go test for any non-empty composite component. -/
def hasSourceComposite (r : Route) : Bool :=
  r.SourceScheme != "" || r.SourceHost != "" || r.SourcePort != "" ||
  r.SourcePath != "" || r.SourceQuery != ""

/-- Status defaulting performed through the `*status` pointer. -/
def statusNormalize (r : Route) : Route :=
  if r.RedirectStatus == 0 then { r with RedirectStatus := defaultRedirectStatus } else r

/-- Store the (possibly updated) scheme group. -/
def writeScheme (st : LoadState) (r : Route) (sg : schemeRouteGroup) : LoadState :=
  { st with compositeRoutes := alInsert st.compositeRoutes r.SourceScheme sg }

/-- Store the host group inside its scheme group. -/
def writeHost (st : LoadState) (r : Route) (sg : schemeRouteGroup) (hg : hostRouteGroup) :
    LoadState :=
  writeScheme st r { sg with hostRoutes := alInsert sg.hostRoutes r.SourceHost hg }

/-- Store the port group inside its host group. -/
def writePort (st : LoadState) (r : Route) (sg : schemeRouteGroup) (hg : hostRouteGroup)
    (pg : portRouteGroup) : LoadState :=
  writeHost st r sg { hg with portRoutes := alInsert hg.portRoutes r.SourcePort pg }

/-- Store the path group inside its port group. -/
def writePath (st : LoadState) (r : Route) (sg : schemeRouteGroup) (hg : hostRouteGroup)
    (pg : portRouteGroup) (pathg : pathRouteGroup) : LoadState :=
  writePort st r sg hg { pg with pathRoutes := alInsert pg.pathRoutes r.SourcePath pathg }

/-- Store the query group inside its path group. -/
def writeQuery (st : LoadState) (r : Route) (sg : schemeRouteGroup) (hg : hostRouteGroup)
    (pg : portRouteGroup) (pathg : pathRouteGroup) (qg : queryRouteGroup) : LoadState :=
  writePath st r sg hg pg { pathg with queryRoutes := alInsert pathg.queryRoutes r.SourceQuery qg }

/-- Query level of `loadRoute`'s composite branch: reuse or compile the
query pattern, then append the route to the leaf list. -/
def loadCompositeQuery (creg : String → Option Regexp) (st : LoadState) (r : Route)
    (sg : schemeRouteGroup) (hg : hostRouteGroup) (pg : portRouteGroup)
    (pathg : pathRouteGroup) : LoadState × Option String :=
  match alGet pathg.queryRoutes r.SourceQuery with
  | some qg => (writeQuery st r sg hg pg pathg { qg with routes := qg.routes ++ [r] }, none)
  | none =>
    match creg r.SourceQuery with
    | none => (writePath st r sg hg pg pathg, some errQueryCompile)
    | some re => (writeQuery st r sg hg pg pathg ⟨re, [r]⟩, none)

/-- Path level of `loadRoute`'s composite branch. -/
def loadCompositePath (creg : String → Option Regexp) (st : LoadState) (r : Route)
    (sg : schemeRouteGroup) (hg : hostRouteGroup) (pg : portRouteGroup) :
    LoadState × Option String :=
  match alGet pg.pathRoutes r.SourcePath with
  | some pathg => loadCompositeQuery creg st r sg hg pg pathg
  | none =>
    match creg r.SourcePath with
    | none => (writePort st r sg hg pg, some errPathCompile)
    | some re => loadCompositeQuery creg st r sg hg pg ⟨re, []⟩

/-- Port level of `loadRoute`'s composite branch. -/
def loadCompositePort (creg : String → Option Regexp) (st : LoadState) (r : Route)
    (sg : schemeRouteGroup) (hg : hostRouteGroup) : LoadState × Option String :=
  match alGet hg.portRoutes r.SourcePort with
  | some pg => loadCompositePath creg st r sg hg pg
  | none =>
    match creg r.SourcePort with
    | none => (writeHost st r sg hg, some errPortCompile)
    | some re => loadCompositePath creg st r sg hg ⟨re, []⟩

/-- Host level of `loadRoute`'s composite branch. -/
def loadCompositeHost (creg : String → Option Regexp) (st : LoadState) (r : Route)
    (sg : schemeRouteGroup) : LoadState × Option String :=
  match alGet sg.hostRoutes r.SourceHost with
  | some hg => loadCompositePort creg st r sg hg
  | none =>
    match creg r.SourceHost with
    | none => (writeScheme st r sg, some errHostCompile)
    | some re => loadCompositePort creg st r sg ⟨re, []⟩

/-- Scheme level of `loadRoute`'s composite branch.  A freshly created
group is inserted before the lower levels run, so a later failure leaves
it in the map, exactly as in Go. -/
def loadComposite (creg : String → Option Regexp) (st : LoadState) (r : Route) :
    LoadState × Option String :=
  match alGet st.compositeRoutes r.SourceScheme with
  | some sg => loadCompositeHost creg st r sg
  | none =>
    match creg r.SourceScheme with
    | none => (st, some errSchemeCompile)
    | some re => loadCompositeHost creg st r ⟨re, []⟩

/-- The grouped variant's `loadRoute`: validation in source order (ID,
destination, redirect status, source form), then registration into the
URL map or the composite tree. -/
def loadRoute (creg : String → Option Regexp) (st : LoadState) (r0 : Route) :
    LoadState × Option String :=
  if !routeIDOk r0.ID then (st, some errIllegalID)
  else if r0.DestinationURL == "" then (st, some errMissingDest)
  else if r0.RedirectStatus != 0 && (r0.RedirectStatus < 300 || r0.RedirectStatus > 399) then
    (st, some errBadStatus)
  else
    let r := statusNormalize r0
    if !hasSourceURL r && !hasSourceComposite r then (st, some errMissingSource)
    else if hasSourceURL r && hasSourceComposite r then (st, some errAmbiguousSource)
    else if hasSourceURL r then
      match alGet st.urlRoutes r.SourceURL with
      | some g =>
        ({ st with urlRoutes := alInsert st.urlRoutes r.SourceURL { g with routes := g.routes ++ [r] } },
         none)
      | none =>
        match creg r.SourceURL with
        | none => (st, some errURLCompile)
        | some re =>
          ({ st with urlRoutes := alInsert st.urlRoutes r.SourceURL ⟨re, [r]⟩ }, none)
    else loadComposite creg st r

/-- Empty index state. -/
def emptyState : LoadState := ⟨[], []⟩

/-- Load loop of the grouped variant's `readRouteFile`: disabled routes
are skipped, a failing route is reported and skipped, loading continues
with the remaining routes. -/
def loadAll (creg : String → Option Regexp) (rs : List Route) : LoadState :=
  rs.foldl (fun st r => if r.Disabled then st else (loadRoute creg st r).1) emptyState

/-- Match resolver of the grouped variant (`findBestRoute`).  Go iterates
`urlRoutes` with `range` over a map, whose enumeration order is
unspecified, so the groups are passed as an explicit enumeration list.
The composite tree is not consulted; the source reads
"Check composite routes / TODO implement". -/
def findBestRoute (gs : List urlRouteGroup) (sourceURL : String) : Option Route :=
  gs.foldl
    (fun bestRoute urlGroup =>
      if urlGroup.compiledURL.matchString sourceURL then
        urlGroup.routes.foldl
          (fun best r =>
            match best with
            | none => some r
            | some b => if r.Priority > b.Priority then some r else some b)
          bestRoute
      else bestRoute)
    none

/-- Named-capture collection of the grouped handler: submatches with a
non-empty name, skipping index 0. -/
def buildVarMatches (re : Regexp) (sourceURL : String) : List (String × String) :=
  let varCaptures := (re.findStringSubmatch sourceURL).getD []
  let varCaptureNames := re.subexpNames
  varCaptures.enum.filterMap fun p =>
    if p.1 > 0 then
      match varCaptureNames.getD p.1 "" with
      | "" => none
      | n => some (n, p.2)
    else none

/-- The `${name}` token for a capture name, as built by the handler's
`fmt.Sprintf`. -/
def tokChars (n : String) : List Char :=
  dollarChar :: lbraceChar :: n.data ++ [rbraceChar]

/-- Replacement pass of `strings.NewReplacer(pairs).Replace`: scan left to
right, replace a matching `${name}` token without rescanning replaced
text.  Distinct brace-delimited tokens cannot match at one position, so
the result does not depend on the pair order (Go iterates the capture map
in unspecified order). -/
def substAux (pairs : List (String × String)) : List Char → List Char
  | [] => []
  | c :: rest =>
    match pairs.find? (fun p => (tokChars p.1).isPrefixOf (c :: rest)) with
    | some p => p.2.data ++ substAux pairs (List.drop (tokChars p.1).length (c :: rest))
    | none => c :: substAux pairs rest
termination_by l => l.length
decreasing_by
  all_goals simp [List.length_drop, tokChars]
  all_goals omega

/-- String-level wrapper of the replacement pass. -/
def replaceTokens (pairs : List (String × String)) (template : String) : String :=
  ⟨substAux pairs template.data⟩

/-- Destination building of the grouped handler: named captures of the
route's compiled source-URL regexp, then `${name}` replacement. -/
def destinationGrouped (re : Regexp) (destinationTemplate sourceURL : String) : String :=
  replaceTokens (buildVarMatches re sourceURL) destinationTemplate

/-- Grouped variant's `handleMainRequest` after the source URL is built.
Loaded URL-form routes always carry a compiled pattern (shared with their
group), modelled by looking the pattern up in the compile oracle. -/
def handleGrouped (creg : String → Option Regexp) (gs : List urlRouteGroup)
    (sourceURL : String) : Outcome :=
  match findBestRoute gs sourceURL with
  | none => .notFound
  | some r =>
    let re := (creg r.SourceURL).getD default
    let destinationURL := destinationGrouped re r.DestinationURL sourceURL
    if parseRequestURIOk destinationURL then .redirect destinationURL r.RedirectStatus
    else .malformed r.ID

/-- Load-time validity of a raw route in the grouped variant: the checks
of `loadRoute` as a predicate of the route alone (the compile oracle is a
function, so a reused group pattern compiles exactly when a fresh one
does). -/
def routeQualifies (creg : String → Option Regexp) (r : Route) : Bool :=
  routeIDOk r.ID &&
  !(r.DestinationURL == "") &&
  (r.RedirectStatus == 0 || (300 ≤ r.RedirectStatus && r.RedirectStatus ≤ 399)) &&
  ((hasSourceURL r && !hasSourceComposite r && (creg r.SourceURL).isSome) ||
   (!hasSourceURL r && hasSourceComposite r &&
    (creg r.SourceScheme).isSome && (creg r.SourceHost).isSome &&
    (creg r.SourcePort).isSome && (creg r.SourcePath).isSome &&
    (creg r.SourceQuery).isSome))

/-! ## Spec-level matching and substitution -/

/-- Components of a request URL, for spec-level composite matching. -/
structure URLParts where
  full : String
  scheme : String
  host : String
  port : String
  path : String
  query : String

/-- Modelled from the spec: rule matching "as if every single rule's full
pattern (reconstructed by concatenating active components) were tested
independently against the source URL".  The composite matching path of
`findBestRoute` is missing from the source ("TODO implement"), so its
intended semantics is taken from the spec: a URL-form rule matches when
its pattern matches the full source URL; a composite rule matches when
each of its five component patterns matches the corresponding URL
component (an absent component pattern is the empty pattern, which
matches anything). -/
def routeMatchesSpec (creg : String → Option Regexp) (r : Route) (u : URLParts) : Bool :=
  if hasSourceURL r then
    match creg r.SourceURL with
    | some re => re.matchString u.full
    | none => false
  else
    (match creg r.SourceScheme with | some re => re.matchString u.scheme | none => false) &&
    (match creg r.SourceHost with | some re => re.matchString u.host | none => false) &&
    (match creg r.SourcePort with | some re => re.matchString u.port | none => false) &&
    (match creg r.SourcePath with | some re => re.matchString u.path | none => false) &&
    (match creg r.SourceQuery with | some re => re.matchString u.query | none => false)

/-- Lookup of a captured name among the substitution pairs. -/
def lookupVal (pairs : List (String × String)) (n : List Char) : Option (List Char) :=
  (pairs.find? (fun p => p.1.data == n)).map (fun p => p.2.data)

/-- Spec-level reading of the grouped substitution (the amended C4
statement): scan the template; a well-formed `${name}` token is replaced
by the captured value when `name` is a captured name and is left verbatim
otherwise; every other character is copied. -/
def substSpec (pairs : List (String × String)) : List Char → List Char
  | [] => []
  | [c] => [c]
  | c :: c2 :: rest2 =>
    if c == dollarChar && c2 == lbraceChar then
      let name := rest2.takeWhile wordCharGo
      if name.isEmpty then c :: substSpec pairs (c2 :: rest2)
      else
        match rest2.drop name.length with
        | c3 :: _ =>
          if c3 == rbraceChar then
            match lookupVal pairs name with
            | some v => v ++ substSpec pairs (rest2.drop (name.length + 1))
            | none => tokChars ⟨name⟩ ++ substSpec pairs (rest2.drop (name.length + 1))
          else c :: substSpec pairs (c2 :: rest2)
        | [] => c :: substSpec pairs (c2 :: rest2)
    else c :: substSpec pairs (c2 :: rest2)
termination_by l => l.length
decreasing_by
  all_goals simp [List.length_drop]
  all_goals omega

/-! ## Concrete regular expressions for the verified scenarios

Modelled from the spec and RE2 semantics: the repository's patterns are
compiled by the external `regexp` library; the concrete patterns below
are given their actual matching behaviour. -/

/-- Literal replacement of every leftmost non-overlapping occurrence of
`n0 :: ntail` (Go `ReplaceAllString` for a literal pattern). -/
def replaceAllLit (n0 : Char) (ntail repl : List Char) : List Char → List Char
  | [] => []
  | c :: rest =>
    if (n0 :: ntail).isPrefixOf (c :: rest) then
      repl ++ replaceAllLit n0 ntail repl (List.drop ntail.length rest)
    else c :: replaceAllLit n0 ntail repl rest
termination_by l => l.length
decreasing_by
  all_goals simp [List.length_drop]
  all_goals omega

/-- The empty pattern: matches the empty string at the start of any input
(used for absent composite components).  Replacement inserts the expanded
template before every character and at the end. -/
def reEmptyPat : Regexp where
  matchString := fun _ => true
  findStringSubmatch := fun _ => some [""]
  subexpNames := [""]
  replaceAllString := fun s tmpl =>
    let e := goExpandAux [""] [""] tmpl.data
    ⟨s.data.foldr (fun c acc => e ++ c :: acc) e⟩

/-- The pattern `http` (unanchored literal). -/
def reHttpLit : Regexp where
  matchString := fun s => occursIn "http".data s.data
  findStringSubmatch := fun s => if occursIn "http".data s.data then some ["http"] else none
  subexpNames := [""]
  replaceAllString := fun s tmpl =>
    ⟨replaceAllLit 'h' "ttp".data (goExpandAux ["http"] [""] tmpl.data) s.data⟩

/-- The pattern `^http` (anchored literal prefix). -/
def reCaretHttp : Regexp where
  matchString := fun s => strStartsWith s "http"
  findStringSubmatch := fun s => if strStartsWith s "http" then some ["http"] else none
  subexpNames := [""]
  replaceAllString := fun s tmpl =>
    if strStartsWith s "http" then ⟨goExpandAux ["http"] [""] tmpl.data ++ s.data.drop 4⟩
    else s

/-- The pattern `^http://` (anchored literal prefix). -/
def reHttpPrefixPat : Regexp where
  matchString := fun s => strStartsWith s "http://"
  findStringSubmatch := fun s =>
    if strStartsWith s "http://" then some ["http://"] else none
  subexpNames := [""]
  replaceAllString := fun s tmpl =>
    if strStartsWith s "http://" then
      ⟨goExpandAux ["http://"] [""] tmpl.data ++ s.data.drop 7⟩
    else s

/-- The pattern `^http://a$` (fully anchored literal). -/
def reHttpA : Regexp where
  matchString := fun s => s == "http://a"
  findStringSubmatch := fun s => if s == "http://a" then some ["http://a"] else none
  subexpNames := [""]
  replaceAllString := fun s tmpl =>
    if s == "http://a" then ⟨goExpandAux ["http://a"] [""] tmpl.data⟩ else s

/-- Matching of `^http://(.*)$`: the whole input starts with `http://`
and the remainder has no newline (`.` does not match newlines). -/
def matchHttpCapAll (s : String) : Bool :=
  strStartsWith s "http://" && !(s.data.drop 7).any (· == '\n')

/-- The pattern `^http://(.*)$` (one unnamed capture group). -/
def reHttpCapAll : Regexp where
  matchString := matchHttpCapAll
  findStringSubmatch := fun s =>
    if matchHttpCapAll s then some [s, ⟨s.data.drop 7⟩] else none
  subexpNames := ["", ""]
  replaceAllString := fun s tmpl =>
    if matchHttpCapAll s then goExpandStr tmpl [s, ⟨s.data.drop 7⟩] ["", ""] else s

/-- The pattern `^http://(?P<p>.*)$` (named capture `p`). -/
def reHttpCapP : Regexp where
  matchString := matchHttpCapAll
  findStringSubmatch := fun s =>
    if matchHttpCapAll s then some [s, ⟨s.data.drop 7⟩] else none
  subexpNames := ["", "p"]
  replaceAllString := fun s tmpl =>
    if matchHttpCapAll s then goExpandStr tmpl [s, ⟨s.data.drop 7⟩] ["", "p"] else s

/-- The pattern `^http://(?P<h>.*)$` (named capture `h`). -/
def reHttpCapH : Regexp where
  matchString := matchHttpCapAll
  findStringSubmatch := fun s =>
    if matchHttpCapAll s then some [s, ⟨s.data.drop 7⟩] else none
  subexpNames := ["", "h"]
  replaceAllString := fun s tmpl =>
    if matchHttpCapAll s then goExpandStr tmpl [s, ⟨s.data.drop 7⟩] ["", "h"] else s

/-- Compile oracle for the concrete patterns of the verified scenarios
(`regexp.Compile` on those pattern strings); other patterns are not
consulted by the scenarios and are mapped to a compile failure. -/
def cregDemo (pat : String) : Option Regexp :=
  if pat == "" then some reEmptyPat
  else if pat == "http" then some reHttpLit
  else if pat == "^http" then some reCaretHttp
  else if pat == "^http://" then some reHttpPrefixPat
  else if pat == "^http://a$" then some reHttpA
  else if pat == "^http://(.*)$" then some reHttpCapAll
  else if pat == "^http://(?P<p>.*)$" then some reHttpCapP
  else if pat == "^http://(?P<h>.*)$" then some reHttpCapH
  else none

/-! ## Registration counting and derived views of the state -/

/-- Sum of a measure over the values of a map. -/
def alSum (m : List (String × α)) (f : α → Nat) : Nat :=
  (m.map fun kg => f kg.2).sum

/-- Occurrences of a route identity in a leaf group. -/
def qCount (qg : queryRouteGroup) (u : Nat) : Nat :=
  qg.routes.countP (fun r => r.uid == u)

/-- Occurrences of a route identity under a path group. -/
def pathCount (g : pathRouteGroup) (u : Nat) : Nat :=
  alSum g.queryRoutes (qCount · u)

/-- Occurrences of a route identity under a port group. -/
def portCount (g : portRouteGroup) (u : Nat) : Nat :=
  alSum g.pathRoutes (pathCount · u)

/-- Occurrences of a route identity under a host group. -/
def hostCount (g : hostRouteGroup) (u : Nat) : Nat :=
  alSum g.portRoutes (portCount · u)

/-- Occurrences of a route identity under a scheme group. -/
def schemeCount (g : schemeRouteGroup) (u : Nat) : Nat :=
  alSum g.hostRoutes (hostCount · u)

/-- Occurrences of a route identity in a URL group. -/
def urlGroupCount (g : urlRouteGroup) (u : Nat) : Nat :=
  g.routes.countP (fun r => r.uid == u)

/-- Number of registrations of a route identity anywhere in the index. -/
def uidCount (st : LoadState) (u : Nat) : Nat :=
  alSum st.urlRoutes (urlGroupCount · u) + alSum st.compositeRoutes (schemeCount · u)

/-- All URL-form routes registered in the index. -/
def urlRegistered (st : LoadState) : List Route :=
  st.urlRoutes.flatMap fun kg => kg.2.routes

/-- A URL-form rule's own pattern matches the source URL. -/
def urlRouteMatches (creg : String → Option Regexp) (r : Route) (url : String) : Bool :=
  match creg r.SourceURL with
  | some re => re.matchString url
  | none => false

/-- Inner fold of `findBestRoute` over one group's route list. -/
def bestOf (b : Option Route) (rs : List Route) : Option Route :=
  rs.foldl
    (fun best r =>
      match best with
      | none => some r
      | some bb => if r.Priority > bb.Priority then some r else some bb)
    b
/-- The grouped matcher of one group. -/
def groupMatches (g : urlRouteGroup) (url : String) : Bool :=
  g.compiledURL.matchString url
/-- All pattern keys below a path group compile. -/
def pathKeysOk (creg : String → Option Regexp) (g : pathRouteGroup) : Prop :=
  ∀ kg ∈ g.queryRoutes, (creg kg.1).isSome = true

/-- All pattern keys below a port group compile. -/
def portKeysOk (creg : String → Option Regexp) (g : portRouteGroup) : Prop :=
  ∀ kg ∈ g.pathRoutes, (creg kg.1).isSome = true ∧ pathKeysOk creg kg.2

/-- All pattern keys below a host group compile. -/
def hostKeysOk (creg : String → Option Regexp) (g : hostRouteGroup) : Prop :=
  ∀ kg ∈ g.portRoutes, (creg kg.1).isSome = true ∧ portKeysOk creg kg.2

/-- All pattern keys below a scheme group compile. -/
def schemeKeysOk (creg : String → Option Regexp) (g : schemeRouteGroup) : Prop :=
  ∀ kg ∈ g.hostRoutes, (creg kg.1).isSome = true ∧ hostKeysOk creg kg.2

/-- All pattern keys in the composite tree compile. -/
def compositeKeysOk (creg : String → Option Regexp) (st : LoadState) : Prop :=
  ∀ kg ∈ st.compositeRoutes, (creg kg.1).isSome = true ∧ schemeKeysOk creg kg.2

/-- Well-formedness of the URL map: each group's pattern key compiles to
its shared regexp and every route in a group carries the group's key. -/
def urlWF (creg : String → Option Regexp) (st : LoadState) : Prop :=
  ∀ kg ∈ st.urlRoutes,
    creg kg.1 = some kg.2.compiledURL ∧ ∀ r ∈ kg.2.routes, r.SourceURL = kg.1

/-- Combined invariant of the loaded state. -/
def StateWF (creg : String → Option Regexp) (st : LoadState) : Prop :=
  urlWF creg st ∧ compositeKeysOk creg st
/-! ## Concrete scenario data -/

/-- Scenario A rule for the flat variant (`${1}` reference form). -/
def rScenA : route := ⟨"a", "^http://(.*)$", "https://${1}", 0, 1000⟩

/-- Scenario A rule for the grouped variant (equivalent named-capture form). -/
def rScenAg : Route :=
  ⟨0, "a", false, "^http://(?P<p>.*)$", "", "", "", "", "", "https://${p}", 0, 1000⟩

/-- Two URL-form rules with distinct patterns, both matching `http://a`,
tied at priority 5. -/
def rTieA : Route := ⟨0, "a", false, "^http://a$", "", "", "", "", "", "https://a.example", 0, 5⟩

/-- Second rule of the tie pair. -/
def rTieB : Route := ⟨1, "b", false, "^http", "", "", "", "", "", "https://b.example", 0, 5⟩

/-- A composite rule: scheme pattern `http`, all other components absent. -/
def rComposite : Route := ⟨0, "comp", false, "", "http", "", "", "", "", "https://example.org", 0, 5⟩

/-- Components of the request URL `http://x.com/p`. -/
def uParts : URLParts := ⟨"http://x.com/p", "http", "x.com", "", "/p", ""⟩

/-- A low-priority URL-form rule matching any `http` URL. -/
def rLowURL : Route := ⟨0, "u", false, "^http", "", "", "", "", "", "https://u.example", 0, 1⟩

/-- A high-priority composite rule whose components all match `http://x.com/p`. -/
def rHighComposite : Route := ⟨1, "comp", false, "", "http", "", "", "", "", "https://c.example", 0, 9⟩

/-- Compiled flat routes tied at priority 5 (for tie-break witnesses). -/
def wRouteA : compiledRoute := ⟨⟨"a", "^http", "https://a.example", 302, 5⟩, reCaretHttp⟩

/-- Second compiled flat route of the tie pair. -/
def wRouteB : compiledRoute := ⟨⟨"b", "^http://(.*)$", "https://b.example", 302, 5⟩, reHttpCapAll⟩

/-- A flat rule whose anchored-prefix pattern matches only part of the URL
and whose destination template has no variable references. -/
def rPrefix6 : route := ⟨"c6", "^http://", "https://x", 0, 0⟩

/-- A valid grouped rule and an invalid one (illegal ID), both enabled. -/
def rGood8 : Route := ⟨0, "good", false, "^http", "", "", "", "", "", "https://g.example", 0, 0⟩

/-- The invalid rule of the pair (ID fails the identifier pattern). -/
def rBad8 : Route := ⟨1, "bad id!", false, "^http", "", "", "", "", "", "https://b.example", 0, 0⟩

/-! ## Lemmas: flat-variant linear scan -/

/-- Matching of the route at an index (out-of-range uses the default
regexp, which matches nothing). -/
def flatMatchesAt (all : List compiledRoute) (url : String) (j : Nat) : Bool :=
  (all.getD j default).CompiledSourceURL.matchString url

/-- Priority of the route at an index. -/
def flatPriorityAt (all : List compiledRoute) (j : Nat) : Int :=
  (all.getD j default).toroute.Priority

/-- Invariant of the linear scan after the first `i` routes: `none` means
no match so far; `some b` is a matching index of maximal priority among
the scanned ones and the first index attaining its priority. -/
def flatInv (all : List compiledRoute) (url : String) (i : Nat) : Option Nat → Prop
  | none => ∀ j, j < i → flatMatchesAt all url j = false
  | some b =>
    b < i ∧ flatMatchesAt all url b = true ∧
    (∀ j, j < i → flatMatchesAt all url j = true → flatPriorityAt all j ≤ flatPriorityAt all b) ∧
    (∀ j, j < b → flatMatchesAt all url j = true → flatPriorityAt all j < flatPriorityAt all b)

lemma flatMatchesAt_true_lt {all : List compiledRoute} {url : String} {b : Nat}
    (h : flatMatchesAt all url b = true) : b < all.length := by
  by_contra hge
  have : all.getD b default = default := List.getD_eq_default _ _ (by omega)
  rw [flatMatchesAt, this] at h
  simp [default, Inhabited.default] at h

lemma getD_of_drop_cons {α : Type _} [Inhabited α] {all rest : List α} {r : α} {i : Nat}
    (h : all.drop i = r :: rest) : all.getD i default = r := by
  have h0 : all[i]? = some r := by
    have := List.getElem?_drop all i 0
    rw [h] at this
    simpa using this.symm
  simp [List.getD_eq_getElem?_getD, h0]

lemma drop_succ_of_drop_cons {α : Type _} {all rest : List α} {r : α} {i : Nat}
    (h : all.drop i = r :: rest) : all.drop (i + 1) = rest := by
  have := List.drop_drop 1 i all
  rw [h] at this
  simpa [Nat.add_comm] using this.symm

lemma findBestAux_inv (all : List compiledRoute) (url : String) :
    ∀ (cur : List compiledRoute) (i : Nat) (best : Option Nat),
      all.drop i = cur → flatInv all url i best →
      flatInv all url all.length (findBestAux all url i cur best) := by
  intro cur
  induction cur with
  | nil =>
    intro i best hdrop hinv
    have hi : all.length ≤ i := by
      have := congrArg List.length hdrop
      simp [List.length_drop] at this
      omega
    cases best with
    | none =>
      simp only [findBestAux]
      intro j hj
      exact hinv j (by omega)
    | some b =>
      simp only [findBestAux]
      obtain ⟨hb, hm, hmax, hfirst⟩ := hinv
      exact ⟨flatMatchesAt_true_lt hm, hm, fun j hj => hmax j (by omega), hfirst⟩
  | cons r rest ih =>
    intro i best hdrop hinv
    have hr : all.getD i default = r := getD_of_drop_cons hdrop
    have hdrop' : all.drop (i + 1) = rest := drop_succ_of_drop_cons hdrop
    have hmAt : flatMatchesAt all url i = r.CompiledSourceURL.matchString url := by
      simp only [flatMatchesAt]; rw [hr]
    have hpAt : flatPriorityAt all i = r.toroute.Priority := by
      simp only [flatPriorityAt]; rw [hr]
    simp only [findBestAux]
    apply ih (i + 1) _ hdrop'
    by_cases hmatch : r.CompiledSourceURL.matchString url = true
    · cases best with
      | none =>
        simp only [hmatch, if_true]
        refine ⟨by omega, by rw [hmAt]; exact hmatch, ?_, ?_⟩
        · intro j hj hjm
          have hji : j = i := by
            rcases Nat.lt_succ_iff_lt_or_eq.mp hj with h | h
            · rw [hinv j h] at hjm; exact absurd hjm (by simp)
            · exact h
          simp [hji]
        · intro j hj hjm
          rw [hinv j hj] at hjm
          exact absurd hjm (by simp)
      | some b =>
        obtain ⟨hb, hm, hmax, hfirst⟩ := hinv
        simp only [hmatch, if_true]
        by_cases hgt : r.toroute.Priority > (all.getD b default).toroute.Priority
        · have hgtP : flatPriorityAt all b < flatPriorityAt all i := by
            rw [hpAt]; exact hgt
          simp only [hgt, if_true]
          refine ⟨by omega, by rw [hmAt]; exact hmatch, ?_, ?_⟩
          · intro j hj hjm
            rcases Nat.lt_succ_iff_lt_or_eq.mp hj with h | h
            · have := hmax j h hjm
              omega
            · subst h; omega
          · intro j hj hjm
            have := hmax j (by omega) hjm
            omega
        · have hleP : flatPriorityAt all i ≤ flatPriorityAt all b := by
            rw [hpAt]; exact not_lt.mp hgt
          simp only [hgt, if_false]
          refine ⟨by omega, hm, ?_, hfirst⟩
          intro j hj hjm
          rcases Nat.lt_succ_iff_lt_or_eq.mp hj with h | h
          · exact hmax j h hjm
          · subst h; omega
    · have hmatch' : r.CompiledSourceURL.matchString url = false := by
        simpa using hmatch
      cases best with
      | none =>
        simp only [hmatch', if_false]
        intro j hj
        rcases Nat.lt_succ_iff_lt_or_eq.mp hj with h | h
        · exact hinv j h
        · subst h; rw [hmAt]; exact hmatch'
      | some b =>
        obtain ⟨hb, hm, hmax, hfirst⟩ := hinv
        simp only [hmatch', if_false]
        refine ⟨by omega, hm, ?_, hfirst⟩
        intro j hj hjm
        rcases Nat.lt_succ_iff_lt_or_eq.mp hj with h | h
        · exact hmax j h hjm
        · subst h
          rw [hmAt] at hjm
          rw [hjm] at hmatch'
          exact absurd hmatch' (by simp)

/-- Specification of the flat linear scan. -/
lemma findBestRouteID_spec (all : List compiledRoute) (url : String) :
    flatInv all url all.length (findBestRouteID all url) := by
  have := findBestAux_inv all url all 0 none (by simp) (by intro j hj; omega)
  simpa [findBestRouteID] using this

/-! ## Lemmas: grouped-variant resolver -/

lemma findBestRoute_eq (gs : List urlRouteGroup) (url : String) :
    findBestRoute gs url =
      gs.foldl
        (fun b g => if g.compiledURL.matchString url then bestOf b g.routes else b)
        none := rfl

lemma bestOf_none_iff : ∀ (rs : List Route) (b : Option Route),
    bestOf b rs = none ↔ b = none ∧ rs = [] := by
  intro rs
  induction rs with
  | nil => intro b; simp [bestOf]
  | cons r rest ih =>
    intro b
    cases b with
    | none =>
      simp only [bestOf, List.foldl_cons]
      rw [show (rest.foldl _ (some r) : Option Route) = bestOf (some r) rest from rfl, ih]
      simp
    | some bb =>
      simp only [bestOf, List.foldl_cons]
      by_cases h : r.Priority > bb.Priority <;>
        simp only [h, if_true, if_false, reduceIte] <;>
        rw [show ∀ x, (rest.foldl _ (some x) : Option Route) = bestOf (some x) rest from
          fun _ => rfl, ih] <;> simp

lemma bestOf_cases : ∀ (rs : List Route) (b : Option Route) (r' : Route),
    bestOf b rs = some r' → b = some r' ∨ r' ∈ rs := by
  intro rs
  induction rs with
  | nil => intro b r' h; simp [bestOf] at h; simp [h]
  | cons r rest ih =>
    intro b r' h
    cases b with
    | none =>
      have h' : bestOf (some r) rest = some r' := h
      rcases ih _ _ h' with h1 | h1
      · right; simp at h1; simp [h1]
      · right; simp [h1]
    | some bb =>
      by_cases hgt : r.Priority > bb.Priority
      · have h' : bestOf (some r) rest = some r' := by
          simpa [bestOf, hgt] using h
        rcases ih _ _ h' with h1 | h1
        · right; simp at h1; simp [h1]
        · right; simp [h1]
      · have h' : bestOf (some bb) rest = some r' := by
          simpa [bestOf, hgt] using h
        rcases ih _ _ h' with h1 | h1
        · left; exact h1
        · right; simp [h1]

lemma bestOf_ge : ∀ (rs : List Route) (b : Option Route) (r' : Route),
    bestOf b rs = some r' →
    (∀ x ∈ rs, x.Priority ≤ r'.Priority) ∧ (∀ x, b = some x → x.Priority ≤ r'.Priority) := by
  intro rs
  induction rs with
  | nil =>
    intro b r' h
    simp [bestOf] at h
    subst h
    exact ⟨by simp, by intro x hx; simp at hx; simp [hx]⟩
  | cons r rest ih =>
    intro b r' h
    cases b with
    | none =>
      have h' : bestOf (some r) rest = some r' := h
      obtain ⟨h1, h2⟩ := ih _ _ h'
      refine ⟨?_, by intro x hx; cases hx⟩
      intro x hx
      rcases List.mem_cons.mp hx with h3 | h3
      · subst h3; exact h2 x rfl
      · exact h1 x h3
    | some bb =>
      by_cases hgt : r.Priority > bb.Priority
      · have h' : bestOf (some r) rest = some r' := by
          simpa [bestOf, hgt] using h
        obtain ⟨h1, h2⟩ := ih _ _ h'
        have hr : r.Priority ≤ r'.Priority := h2 r rfl
        refine ⟨?_, ?_⟩
        · intro x hx
          rcases List.mem_cons.mp hx with h3 | h3
          · subst h3; exact hr
          · exact h1 x h3
        · intro x hx
          cases hx
          omega
      · have h' : bestOf (some bb) rest = some r' := by
          simpa [bestOf, hgt] using h
        obtain ⟨h1, h2⟩ := ih _ _ h'
        have hbb : bb.Priority ≤ r'.Priority := h2 bb rfl
        refine ⟨?_, ?_⟩
        · intro x hx
          rcases List.mem_cons.mp hx with h3 | h3
          · subst h3; omega
          · exact h1 x h3
        · intro x hx
          cases hx
          exact hbb

lemma findBestRoute_outer : ∀ (gs : List urlRouteGroup) (url : String) (b : Option Route),
    let res := gs.foldl
      (fun b g => if g.compiledURL.matchString url then bestOf b g.routes else b) b
    (∀ r', res = some r' →
      (b = some r' ∨ ∃ g ∈ gs, groupMatches g url = true ∧ r' ∈ g.routes) ∧
      (∀ g ∈ gs, groupMatches g url = true → ∀ x ∈ g.routes, x.Priority ≤ r'.Priority) ∧
      (∀ x, b = some x → x.Priority ≤ r'.Priority)) ∧
    (res = none → b = none ∧ ∀ g ∈ gs, groupMatches g url = true → g.routes = []) := by
  intro gs
  induction gs with
  | nil =>
    intro url b
    refine ⟨fun r' h => ⟨Or.inl h, by simp, ?_⟩, ?_⟩
    · intro x hx
      simp only [List.foldl_nil] at h
      rw [h] at hx
      cases hx
      exact le_refl _
    · intro h
      simp only [List.foldl_nil] at h
      exact ⟨h, by simp⟩
  | cons g rest ih =>
    intro url b
    by_cases hg : g.compiledURL.matchString url = true
    · constructor
      · intro r' hres
        have hres' : rest.foldl (fun b g => if g.compiledURL.matchString url then bestOf b g.routes else b) (bestOf b g.routes) = some r' := by
          simpa [hg] using hres
        obtain ⟨hmem, hmax, hinit⟩ := (ih url (bestOf b g.routes)).1 r' hres'
        constructor
        · rcases hmem with h1 | ⟨g', hg', hm', hr'⟩
          · rcases bestOf_cases _ _ _ h1 with h2 | h2
            · exact Or.inl h2
            · exact Or.inr ⟨g, by simp, by simpa [groupMatches] using hg, h2⟩
          · exact Or.inr ⟨g', by simp [hg'], hm', hr'⟩
        · constructor
          · intro g' hg' hm' x hx
            rcases List.mem_cons.mp hg' with h1 | h1
            · subst h1
              cases hob : bestOf b g'.routes with
              | none =>
                rw [((bestOf_none_iff _ _).mp hob).2] at hx
                cases hx
              | some bb =>
                have h2 := (bestOf_ge _ _ _ hob).1 x hx
                have h3 := hinit bb hob
                omega
            · exact hmax g' h1 hm' x hx
          · intro x hx
            cases hob : bestOf b g.routes with
            | none =>
              rw [((bestOf_none_iff _ _).mp hob).1] at hx
              cases hx
            | some bb =>
              have h2 := (bestOf_ge _ _ _ hob).2 x hx
              have h3 := hinit bb hob
              omega
      · intro hres
        have hres' : rest.foldl (fun b g => if g.compiledURL.matchString url then bestOf b g.routes else b) (bestOf b g.routes) = none := by
          simpa [hg] using hres
        obtain ⟨h1, h2⟩ := (ih url (bestOf b g.routes)).2 hres'
        obtain ⟨hb, hrs⟩ := (bestOf_none_iff _ _).mp h1
        refine ⟨hb, ?_⟩
        intro g' hg' hm'
        rcases List.mem_cons.mp hg' with h3 | h3
        · subst h3; exact hrs
        · exact h2 g' h3 hm'
    · have hg' : g.compiledURL.matchString url = false := by simpa using hg
      constructor
      · intro r' hres
        have hres' : rest.foldl (fun b g => if g.compiledURL.matchString url then bestOf b g.routes else b) b = some r' := by
          simpa [hg'] using hres
        obtain ⟨hmem, hmax, hinit⟩ := (ih url b).1 r' hres'
        refine ⟨?_, ?_, hinit⟩
        · rcases hmem with h1 | ⟨g2, hg2, hm2, hr2⟩
          · exact Or.inl h1
          · exact Or.inr ⟨g2, by simp [hg2], hm2, hr2⟩
        · intro g2 hg2 hm2 x hx
          rcases List.mem_cons.mp hg2 with h1 | h1
          · subst h1
            rw [groupMatches, hg'] at hm2
            cases hm2
          · exact hmax g2 h1 hm2 x hx
      · intro hres
        have hres' : rest.foldl (fun b g => if g.compiledURL.matchString url then bestOf b g.routes else b) b = none := by
          simpa [hg'] using hres
        obtain ⟨h1, h2⟩ := (ih url b).2 hres'
        refine ⟨h1, ?_⟩
        intro g2 hg2 hm2
        rcases List.mem_cons.mp hg2 with h3 | h3
        · subst h3
          rw [groupMatches, hg'] at hm2
          cases hm2
        · exact h2 g2 h3 hm2

/-- Specification of the grouped resolver over an arbitrary enumeration of
the URL groups. -/
lemma findBestRoute_spec (gs : List urlRouteGroup) (url : String) :
    (∀ r', findBestRoute gs url = some r' →
      (∃ g ∈ gs, groupMatches g url = true ∧ r' ∈ g.routes) ∧
      (∀ g ∈ gs, groupMatches g url = true → ∀ x ∈ g.routes, x.Priority ≤ r'.Priority)) ∧
    (findBestRoute gs url = none → ∀ g ∈ gs, groupMatches g url = true → g.routes = []) := by
  have h := findBestRoute_outer gs url none
  rw [← findBestRoute_eq] at h
  constructor
  · intro r' hres
    obtain ⟨hmem, hmax, _⟩ := h.1 r' hres
    refine ⟨?_, hmax⟩
    rcases hmem with h1 | h1
    · cases h1
    · exact h1
  · intro hres
    exact (h.2 hres).2

/-! ## Lemmas: association lists -/

lemma alGet_cons {α : Type _} (kg : String × α) (rest : List (String × α)) (k : String) :
    alGet (kg :: rest) k = if kg.1 == k then some kg.2 else alGet rest k := by
  unfold alGet
  cases hbe : kg.1 == k <;> simp [List.find?, hbe]

lemma alGet_mem {α : Type _} {m : List (String × α)} {k : String} {v : α}
    (h : alGet m k = some v) : (k, v) ∈ m := by
  induction m with
  | nil => simp [alGet] at h
  | cons kg rest ih =>
    rw [alGet_cons] at h
    cases hbe : kg.1 == k with
    | true =>
      rw [hbe] at h
      simp only [if_true] at h
      have hk : kg.1 = k := by simpa using hbe
      have hv : kg.2 = v := by simpa using h
      have hkg : kg = (k, v) := by cases kg; simp_all
      simp [hkg]
    | false =>
      rw [hbe] at h
      simp only [Bool.false_eq_true, if_false] at h
      exact List.mem_cons_of_mem _ (ih h)

lemma mem_alInsert {α : Type _} {m : List (String × α)} {k : String} {v : α} {x : String × α}
    (h : x ∈ alInsert m k v) : x ∈ m ∨ x = (k, v) := by
  induction m with
  | nil =>
    simp [alInsert] at h
    simp [h]
  | cons kg rest ih =>
    cases hbe : kg.1 == k with
    | true =>
      simp only [alInsert, hbe, if_true] at h
      rcases List.mem_cons.mp h with h1 | h1
      · right
        have : kg.1 = k := by simpa using hbe
        simp [h1, this]
      · left; exact List.mem_cons_of_mem _ h1
    | false =>
      simp only [alInsert, hbe, Bool.false_eq_true, if_false] at h
      rcases List.mem_cons.mp h with h1 | h1
      · left; simp [h1]
      · rcases ih h1 with h2 | h2
        · left; exact List.mem_cons_of_mem _ h2
        · right; exact h2

lemma alSum_insert_absent {α : Type _} (f : α → Nat) :
    ∀ (m : List (String × α)) (k : String) (v : α),
      alGet m k = none → alSum (alInsert m k v) f = alSum m f + f v := by
  intro m
  induction m with
  | nil => intro k v _; simp [alInsert, alSum]
  | cons kg rest ih =>
    intro k v h
    rw [alGet_cons] at h
    cases hbe : kg.1 == k with
    | true => rw [hbe] at h; simp at h
    | false =>
      rw [hbe] at h
      simp only [Bool.false_eq_true, if_false] at h
      simp only [alInsert, hbe, Bool.false_eq_true, if_false, alSum, List.map_cons,
        List.sum_cons]
      have := ih k v h
      simp only [alSum] at this
      omega

lemma alSum_insert_present {α : Type _} (f : α → Nat) :
    ∀ (m : List (String × α)) (k : String) (v g : α),
      alGet m k = some g → alSum (alInsert m k v) f + f g = alSum m f + f v := by
  intro m
  induction m with
  | nil => intro k v g h; simp [alGet] at h
  | cons kg rest ih =>
    intro k v g h
    rw [alGet_cons] at h
    cases hbe : kg.1 == k with
    | true =>
      rw [hbe] at h
      simp only [if_true] at h
      have hg : kg.2 = g := by simpa using h
      simp only [alInsert, hbe, if_true, alSum, List.map_cons, List.sum_cons]
      rw [hg]
      omega
    | false =>
      rw [hbe] at h
      simp only [Bool.false_eq_true, if_false] at h
      simp only [alInsert, hbe, Bool.false_eq_true, if_false, alSum, List.map_cons,
        List.sum_cons]
      have := ih k v g h
      simp only [alSum] at this
      omega

/-! ## Lemmas: load-state invariants -/

@[simp] lemma statusNormalize_uid (r : Route) : (statusNormalize r).uid = r.uid := by
  unfold statusNormalize; split <;> rfl

@[simp] lemma statusNormalize_SourceURL (r : Route) :
    (statusNormalize r).SourceURL = r.SourceURL := by
  unfold statusNormalize; split <;> rfl

@[simp] lemma statusNormalize_SourceScheme (r : Route) :
    (statusNormalize r).SourceScheme = r.SourceScheme := by
  unfold statusNormalize; split <;> rfl

@[simp] lemma statusNormalize_SourceHost (r : Route) :
    (statusNormalize r).SourceHost = r.SourceHost := by
  unfold statusNormalize; split <;> rfl

@[simp] lemma statusNormalize_SourcePort (r : Route) :
    (statusNormalize r).SourcePort = r.SourcePort := by
  unfold statusNormalize; split <;> rfl

@[simp] lemma statusNormalize_SourcePath (r : Route) :
    (statusNormalize r).SourcePath = r.SourcePath := by
  unfold statusNormalize; split <;> rfl

@[simp] lemma statusNormalize_SourceQuery (r : Route) :
    (statusNormalize r).SourceQuery = r.SourceQuery := by
  unfold statusNormalize; split <;> rfl

@[simp] lemma hasSourceURL_statusNormalize (r : Route) :
    hasSourceURL (statusNormalize r) = hasSourceURL r := by
  unfold hasSourceURL; simp

@[simp] lemma hasSourceComposite_statusNormalize (r : Route) :
    hasSourceComposite (statusNormalize r) = hasSourceComposite r := by
  unfold hasSourceComposite; simp

/-! ## Lemmas: registration counting -/

lemma qCount_fresh (re : Regexp) (r : Route) (u : Nat) :
    qCount ⟨re, [r]⟩ u = (if r.uid == u then 1 else 0) := by
  simp [qCount, List.countP_cons]

lemma qCount_append (qg : queryRouteGroup) (r : Route) (u : Nat) :
    qCount { qg with routes := qg.routes ++ [r] } u =
      qCount qg u + (if r.uid == u then 1 else 0) := by
  simp [qCount, List.countP_append, List.countP_cons]

lemma pathCount_fresh (re : Regexp) (u : Nat) : pathCount ⟨re, []⟩ u = 0 := by
  simp [pathCount, alSum]

lemma portCount_fresh (re : Regexp) (u : Nat) : portCount ⟨re, []⟩ u = 0 := by
  simp [portCount, alSum]

lemma hostCount_fresh (re : Regexp) (u : Nat) : hostCount ⟨re, []⟩ u = 0 := by
  simp [hostCount, alSum]

lemma schemeCount_fresh (re : Regexp) (u : Nat) : schemeCount ⟨re, []⟩ u = 0 := by
  simp [schemeCount, alSum]

lemma cnt_loadCompositeQuery (creg : String → Option Regexp) (st : LoadState) (r : Route)
    (u : Nat) (sg : schemeRouteGroup) (hg : hostRouteGroup) (pg : portRouteGroup)
    (pathg : pathRouteGroup) (B C : Nat)
    (HC : ∀ pathg', uidCount (writePath st r sg hg pg pathg') u + B = C + pathCount pathg' u) :
    uidCount (loadCompositeQuery creg st r sg hg pg pathg).1 u + B =
      C + pathCount pathg u +
        (if (loadCompositeQuery creg st r sg hg pg pathg).2 = none then
          (if r.uid == u then 1 else 0) else 0) := by
  unfold loadCompositeQuery
  cases hq : alGet pathg.queryRoutes r.SourceQuery with
  | some qg =>
    simp only [writeQuery, if_pos rfl]
    rw [HC _]
    have hins :
        alSum (alInsert pathg.queryRoutes r.SourceQuery { qg with routes := qg.routes ++ [r] })
            (fun g => qCount g u) + qCount qg u =
          alSum pathg.queryRoutes (fun g => qCount g u) +
            qCount { qg with routes := qg.routes ++ [r] } u :=
      alSum_insert_present (fun g => qCount g u) pathg.queryRoutes r.SourceQuery
        { qg with routes := qg.routes ++ [r] } qg hq
    have happ := qCount_append qg r u
    simp only [pathCount, if_true]
    omega
  | none =>
    cases hc : creg r.SourceQuery with
    | none =>
      simp only
      rw [HC pathg]
      simp
    | some re =>
      simp only [writeQuery, if_pos rfl]
      rw [HC _]
      have hins :
          alSum (alInsert pathg.queryRoutes r.SourceQuery (⟨re, [r]⟩ : queryRouteGroup))
              (fun g => qCount g u) =
            alSum pathg.queryRoutes (fun g => qCount g u) +
              qCount (⟨re, [r]⟩ : queryRouteGroup) u :=
        alSum_insert_absent (fun g => qCount g u) pathg.queryRoutes r.SourceQuery
          (⟨re, [r]⟩ : queryRouteGroup) hq
      have hfr := qCount_fresh re r u
      simp only [pathCount, if_true]
      omega

lemma cnt_loadCompositePath (creg : String → Option Regexp) (st : LoadState) (r : Route)
    (u : Nat) (sg : schemeRouteGroup) (hg : hostRouteGroup) (pg : portRouteGroup) (B C : Nat)
    (HC : ∀ pg', uidCount (writePort st r sg hg pg') u + B = C + portCount pg' u) :
    uidCount (loadCompositePath creg st r sg hg pg).1 u + B =
      C + portCount pg u +
        (if (loadCompositePath creg st r sg hg pg).2 = none then
          (if r.uid == u then 1 else 0) else 0) := by
  unfold loadCompositePath
  cases hp : alGet pg.pathRoutes r.SourcePath with
  | some pathg =>
    have HC' : ∀ pathg', uidCount (writePath st r sg hg pg pathg') u + (B + pathCount pathg u) =
        (C + portCount pg u) + pathCount pathg' u := by
      intro pathg'
      have hins :
          alSum (alInsert pg.pathRoutes r.SourcePath pathg') (fun g => pathCount g u) +
              pathCount pathg u =
            alSum pg.pathRoutes (fun g => pathCount g u) + pathCount pathg' u :=
        alSum_insert_present (fun g => pathCount g u) pg.pathRoutes r.SourcePath pathg' pathg hp
      have h2 := HC { pg with pathRoutes := alInsert pg.pathRoutes r.SourcePath pathg' }
      simp only [writePath]
      simp only [portCount] at h2 ⊢
      omega
    have hmain := cnt_loadCompositeQuery creg st r u sg hg pg pathg
      (B + pathCount pathg u) (C + portCount pg u) HC'
    simp only
    omega
  | none =>
    cases hc : creg r.SourcePath with
    | none =>
      simp only
      rw [HC pg]
      simp
    | some re =>
      have HC' : ∀ pathg', uidCount (writePath st r sg hg pg pathg') u + B =
          (C + portCount pg u) + pathCount pathg' u := by
        intro pathg'
        have hins :
            alSum (alInsert pg.pathRoutes r.SourcePath pathg') (fun g => pathCount g u) =
              alSum pg.pathRoutes (fun g => pathCount g u) + pathCount pathg' u :=
          alSum_insert_absent (fun g => pathCount g u) pg.pathRoutes r.SourcePath pathg' hp
        have h2 := HC { pg with pathRoutes := alInsert pg.pathRoutes r.SourcePath pathg' }
        simp only [writePath]
        simp only [portCount] at h2 ⊢
        omega
      have hmain := cnt_loadCompositeQuery creg st r u sg hg pg ⟨re, []⟩ B
        (C + portCount pg u) HC'
      have hfr := pathCount_fresh re u
      simp only
      omega

lemma cnt_loadCompositePort (creg : String → Option Regexp) (st : LoadState) (r : Route)
    (u : Nat) (sg : schemeRouteGroup) (hg : hostRouteGroup) (B C : Nat)
    (HC : ∀ hg', uidCount (writeHost st r sg hg') u + B = C + hostCount hg' u) :
    uidCount (loadCompositePort creg st r sg hg).1 u + B =
      C + hostCount hg u +
        (if (loadCompositePort creg st r sg hg).2 = none then
          (if r.uid == u then 1 else 0) else 0) := by
  unfold loadCompositePort
  cases hp : alGet hg.portRoutes r.SourcePort with
  | some pg =>
    have HC' : ∀ pg', uidCount (writePort st r sg hg pg') u + (B + portCount pg u) =
        (C + hostCount hg u) + portCount pg' u := by
      intro pg'
      have hins :
          alSum (alInsert hg.portRoutes r.SourcePort pg') (fun g => portCount g u) +
              portCount pg u =
            alSum hg.portRoutes (fun g => portCount g u) + portCount pg' u :=
        alSum_insert_present (fun g => portCount g u) hg.portRoutes r.SourcePort pg' pg hp
      have h2 := HC { hg with portRoutes := alInsert hg.portRoutes r.SourcePort pg' }
      simp only [writePort]
      simp only [hostCount] at h2 ⊢
      omega
    have hmain := cnt_loadCompositePath creg st r u sg hg pg
      (B + portCount pg u) (C + hostCount hg u) HC'
    simp only
    omega
  | none =>
    cases hc : creg r.SourcePort with
    | none =>
      simp only
      rw [HC hg]
      simp
    | some re =>
      have HC' : ∀ pg', uidCount (writePort st r sg hg pg') u + B =
          (C + hostCount hg u) + portCount pg' u := by
        intro pg'
        have hins :
            alSum (alInsert hg.portRoutes r.SourcePort pg') (fun g => portCount g u) =
              alSum hg.portRoutes (fun g => portCount g u) + portCount pg' u :=
          alSum_insert_absent (fun g => portCount g u) hg.portRoutes r.SourcePort pg' hp
        have h2 := HC { hg with portRoutes := alInsert hg.portRoutes r.SourcePort pg' }
        simp only [writePort]
        simp only [hostCount] at h2 ⊢
        omega
      have hmain := cnt_loadCompositePath creg st r u sg hg ⟨re, []⟩ B
        (C + hostCount hg u) HC'
      have hfr := portCount_fresh re u
      simp only
      omega

lemma cnt_loadCompositeHost (creg : String → Option Regexp) (st : LoadState) (r : Route)
    (u : Nat) (sg : schemeRouteGroup) (B C : Nat)
    (HC : ∀ sg', uidCount (writeScheme st r sg') u + B = C + schemeCount sg' u) :
    uidCount (loadCompositeHost creg st r sg).1 u + B =
      C + schemeCount sg u +
        (if (loadCompositeHost creg st r sg).2 = none then
          (if r.uid == u then 1 else 0) else 0) := by
  unfold loadCompositeHost
  cases hp : alGet sg.hostRoutes r.SourceHost with
  | some hg =>
    have HC' : ∀ hg', uidCount (writeHost st r sg hg') u + (B + hostCount hg u) =
        (C + schemeCount sg u) + hostCount hg' u := by
      intro hg'
      have hins :
          alSum (alInsert sg.hostRoutes r.SourceHost hg') (fun g => hostCount g u) +
              hostCount hg u =
            alSum sg.hostRoutes (fun g => hostCount g u) + hostCount hg' u :=
        alSum_insert_present (fun g => hostCount g u) sg.hostRoutes r.SourceHost hg' hg hp
      have h2 := HC { sg with hostRoutes := alInsert sg.hostRoutes r.SourceHost hg' }
      simp only [writeHost]
      simp only [schemeCount] at h2 ⊢
      omega
    have hmain := cnt_loadCompositePort creg st r u sg hg
      (B + hostCount hg u) (C + schemeCount sg u) HC'
    simp only
    omega
  | none =>
    cases hc : creg r.SourceHost with
    | none =>
      simp only
      rw [HC sg]
      simp
    | some re =>
      have HC' : ∀ hg', uidCount (writeHost st r sg hg') u + B =
          (C + schemeCount sg u) + hostCount hg' u := by
        intro hg'
        have hins :
            alSum (alInsert sg.hostRoutes r.SourceHost hg') (fun g => hostCount g u) =
              alSum sg.hostRoutes (fun g => hostCount g u) + hostCount hg' u :=
          alSum_insert_absent (fun g => hostCount g u) sg.hostRoutes r.SourceHost hg' hp
        have h2 := HC { sg with hostRoutes := alInsert sg.hostRoutes r.SourceHost hg' }
        simp only [writeHost]
        simp only [schemeCount] at h2 ⊢
        omega
      have hmain := cnt_loadCompositePort creg st r u sg ⟨re, []⟩ B
        (C + schemeCount sg u) HC'
      have hfr := hostCount_fresh re u
      simp only
      omega

lemma cnt_loadComposite (creg : String → Option Regexp) (st : LoadState) (r : Route) (u : Nat) :
    uidCount (loadComposite creg st r).1 u =
      uidCount st u +
        (if (loadComposite creg st r).2 = none then
          (if r.uid == u then 1 else 0) else 0) := by
  unfold loadComposite
  cases hs : alGet st.compositeRoutes r.SourceScheme with
  | some sg =>
    have HC : ∀ sg', uidCount (writeScheme st r sg') u + schemeCount sg u =
        uidCount st u + schemeCount sg' u := by
      intro sg'
      have hins :
          alSum (alInsert st.compositeRoutes r.SourceScheme sg') (fun g => schemeCount g u) +
              schemeCount sg u =
            alSum st.compositeRoutes (fun g => schemeCount g u) + schemeCount sg' u :=
        alSum_insert_present (fun g => schemeCount g u) st.compositeRoutes r.SourceScheme sg' sg hs
      simp only [writeScheme, uidCount]
      omega
    have hmain := cnt_loadCompositeHost creg st r u sg (schemeCount sg u) (uidCount st u) HC
    simp only
    omega
  | none =>
    cases hc : creg r.SourceScheme with
    | none => simp
    | some re =>
      have HC : ∀ sg', uidCount (writeScheme st r sg') u + 0 =
          uidCount st u + schemeCount sg' u := by
        intro sg'
        have hins :
            alSum (alInsert st.compositeRoutes r.SourceScheme sg') (fun g => schemeCount g u) =
              alSum st.compositeRoutes (fun g => schemeCount g u) + schemeCount sg' u :=
          alSum_insert_absent (fun g => schemeCount g u) st.compositeRoutes r.SourceScheme sg' hs
        simp only [writeScheme, uidCount]
        omega
      have hmain := cnt_loadCompositeHost creg st r u ⟨re, []⟩ 0 (uidCount st u) HC
      have hfr := schemeCount_fresh re u
      simp only
      omega

lemma urlGroupCount_append (g : urlRouteGroup) (r : Route) (u : Nat) :
    urlGroupCount { g with routes := g.routes ++ [r] } u =
      urlGroupCount g u + (if r.uid == u then 1 else 0) := by
  simp [urlGroupCount, List.countP_append, List.countP_cons]

lemma urlGroupCount_fresh (re : Regexp) (r : Route) (u : Nat) :
    urlGroupCount ⟨re, [r]⟩ u = (if r.uid == u then 1 else 0) := by
  simp [urlGroupCount, List.countP_cons]

lemma cnt_loadRoute (creg : String → Option Regexp) (st : LoadState) (r0 : Route) (u : Nat) :
    uidCount (loadRoute creg st r0).1 u =
      uidCount st u +
        (if (loadRoute creg st r0).2 = none then (if r0.uid == u then 1 else 0) else 0) := by
  unfold loadRoute
  by_cases h1 : routeIDOk r0.ID
  case neg => simp [h1]
  case pos =>
  simp only [h1, Bool.not_true, Bool.false_eq_true, if_false]
  by_cases h2 : r0.DestinationURL == ""
  case pos => simp [h2]
  case neg =>
  simp only [h2, Bool.false_eq_true, if_false]
  by_cases h3 : (r0.RedirectStatus != 0 && (r0.RedirectStatus < 300 || r0.RedirectStatus > 399)) = true
  case pos => simp [h3]
  case neg =>
  simp only [h3, if_false]
  by_cases h4 : (!hasSourceURL (statusNormalize r0) && !hasSourceComposite (statusNormalize r0)) = true
  case pos => simp_all
  case neg =>
  simp only [h4, if_false]
  by_cases h5 : (hasSourceURL (statusNormalize r0) && hasSourceComposite (statusNormalize r0)) = true
  case pos => simp_all
  case neg =>
  simp only [h5, if_false]
  simp only [Bool.false_eq_true, if_false]
  by_cases h6 : hasSourceURL (statusNormalize r0) = true
  case pos =>
    simp only [h6, if_true]
    cases hu : alGet st.urlRoutes (statusNormalize r0).SourceURL with
    | some g =>
      have hins :
          alSum (alInsert st.urlRoutes (statusNormalize r0).SourceURL
                { g with routes := g.routes ++ [statusNormalize r0] })
              (fun g => urlGroupCount g u) + urlGroupCount g u =
            alSum st.urlRoutes (fun g => urlGroupCount g u) +
              urlGroupCount { g with routes := g.routes ++ [statusNormalize r0] } u :=
        alSum_insert_present (fun g => urlGroupCount g u) st.urlRoutes _
          { g with routes := g.routes ++ [statusNormalize r0] } g hu
      have happ := urlGroupCount_append g (statusNormalize r0) u
      simp only [statusNormalize_uid] at happ
      simp only [uidCount, if_true]
      omega
    | none =>
      cases hc : creg (statusNormalize r0).SourceURL with
      | none => simp
      | some re =>
        have hins :
            alSum (alInsert st.urlRoutes (statusNormalize r0).SourceURL
                  (⟨re, [statusNormalize r0]⟩ : urlRouteGroup))
                (fun g => urlGroupCount g u) =
              alSum st.urlRoutes (fun g => urlGroupCount g u) +
                urlGroupCount (⟨re, [statusNormalize r0]⟩ : urlRouteGroup) u :=
          alSum_insert_absent (fun g => urlGroupCount g u) st.urlRoutes _
            (⟨re, [statusNormalize r0]⟩ : urlRouteGroup) hu
        have hfr := urlGroupCount_fresh re (statusNormalize r0) u
        simp only [statusNormalize_uid] at hfr
        simp only [uidCount, if_true]
        omega
  case neg =>
    simp only [h6, Bool.false_eq_true, if_false]
    have := cnt_loadComposite creg st (statusNormalize r0) u
    simpa [statusNormalize_uid] using this

/-! ## Lemmas: invariant preservation and success condition of `loadRoute` -/

lemma pathKeysOk_set (creg : String → Option Regexp) (pathg : pathRouteGroup) (k : String)
    (qg : queryRouteGroup) (h : pathKeysOk creg pathg) (hk : (creg k).isSome = true) :
    pathKeysOk creg { pathg with queryRoutes := alInsert pathg.queryRoutes k qg } := by
  intro kg hm
  rcases mem_alInsert hm with hold | hnew
  · exact h kg hold
  · rw [hnew]; exact hk

lemma portKeysOk_set (creg : String → Option Regexp) (pg : portRouteGroup) (k : String)
    (pathg : pathRouteGroup) (h : portKeysOk creg pg) (hk : (creg k).isSome = true)
    (hg : pathKeysOk creg pathg) :
    portKeysOk creg { pg with pathRoutes := alInsert pg.pathRoutes k pathg } := by
  intro kg hm
  rcases mem_alInsert hm with hold | hnew
  · exact h kg hold
  · rw [hnew]; exact ⟨hk, hg⟩

lemma hostKeysOk_set (creg : String → Option Regexp) (hg : hostRouteGroup) (k : String)
    (pg : portRouteGroup) (h : hostKeysOk creg hg) (hk : (creg k).isSome = true)
    (hn : portKeysOk creg pg) :
    hostKeysOk creg { hg with portRoutes := alInsert hg.portRoutes k pg } := by
  intro kg hm
  rcases mem_alInsert hm with hold | hnew
  · exact h kg hold
  · rw [hnew]; exact ⟨hk, hn⟩

lemma schemeKeysOk_set (creg : String → Option Regexp) (sg : schemeRouteGroup) (k : String)
    (hg : hostRouteGroup) (h : schemeKeysOk creg sg) (hk : (creg k).isSome = true)
    (hn : hostKeysOk creg hg) :
    schemeKeysOk creg { sg with hostRoutes := alInsert sg.hostRoutes k hg } := by
  intro kg hm
  rcases mem_alInsert hm with hold | hnew
  · exact h kg hold
  · rw [hnew]; exact ⟨hk, hn⟩

lemma compositeKeysOk_writeScheme (creg : String → Option Regexp) (st : LoadState) (r : Route)
    (sg : schemeRouteGroup) (h : compositeKeysOk creg st)
    (hk : (creg r.SourceScheme).isSome = true) (hsg : schemeKeysOk creg sg) :
    compositeKeysOk creg (writeScheme st r sg) := by
  intro kg hm
  rcases mem_alInsert hm with hold | hnew
  · exact h kg hold
  · rw [hnew]; exact ⟨hk, hsg⟩

lemma alGet_isSome_of_pathKeysOk {creg : String → Option Regexp} {pathg : pathRouteGroup}
    {k : String} {qg : queryRouteGroup} (h : pathKeysOk creg pathg)
    (hq : alGet pathg.queryRoutes k = some qg) : (creg k).isSome = true :=
  h (k, qg) (alGet_mem hq)

lemma wf_loadCompositeQuery (creg : String → Option Regexp) (st : LoadState) (r : Route)
    (sg : schemeRouteGroup) (hg : hostRouteGroup) (pg : portRouteGroup)
    (pathg : pathRouteGroup) (h : compositeKeysOk creg st)
    (h1 : (creg r.SourceScheme).isSome = true) (h2 : schemeKeysOk creg sg)
    (h3 : (creg r.SourceHost).isSome = true) (h4 : hostKeysOk creg hg)
    (h5 : (creg r.SourcePort).isSome = true) (h6 : portKeysOk creg pg)
    (h7 : (creg r.SourcePath).isSome = true) (h8 : pathKeysOk creg pathg) :
    compositeKeysOk creg (loadCompositeQuery creg st r sg hg pg pathg).1 := by
  have build : ∀ pathg', pathKeysOk creg pathg' →
      compositeKeysOk creg (writePath st r sg hg pg pathg') := by
    intro pathg' hp
    unfold writePath writePort writeHost
    apply compositeKeysOk_writeScheme creg st r _ h h1
    apply schemeKeysOk_set creg sg _ _ h2 h3
    apply hostKeysOk_set creg hg _ _ h4 h5
    apply portKeysOk_set creg pg _ _ h6 h7 hp
  unfold loadCompositeQuery
  cases hq : alGet pathg.queryRoutes r.SourceQuery with
  | some qg =>
    simp only [writeQuery]
    exact build _ (pathKeysOk_set creg pathg _ _ h8 (alGet_isSome_of_pathKeysOk h8 hq))
  | none =>
    cases hc : creg r.SourceQuery with
    | none => exact build pathg h8
    | some re =>
      simp only [writeQuery]
      exact build _ (pathKeysOk_set creg pathg _ _ h8 (by simp [hc]))

lemma wf_loadCompositePath (creg : String → Option Regexp) (st : LoadState) (r : Route)
    (sg : schemeRouteGroup) (hg : hostRouteGroup) (pg : portRouteGroup)
    (h : compositeKeysOk creg st)
    (h1 : (creg r.SourceScheme).isSome = true) (h2 : schemeKeysOk creg sg)
    (h3 : (creg r.SourceHost).isSome = true) (h4 : hostKeysOk creg hg)
    (h5 : (creg r.SourcePort).isSome = true) (h6 : portKeysOk creg pg) :
    compositeKeysOk creg (loadCompositePath creg st r sg hg pg).1 := by
  unfold loadCompositePath
  cases hp : alGet pg.pathRoutes r.SourcePath with
  | some pathg =>
    obtain ⟨hk, hpk⟩ := h6 _ (alGet_mem hp)
    exact wf_loadCompositeQuery creg st r sg hg pg pathg h h1 h2 h3 h4 h5 h6 hk hpk
  | none =>
    cases hc : creg r.SourcePath with
    | none =>
      unfold writePort writeHost
      apply compositeKeysOk_writeScheme creg st r _ h h1
      apply schemeKeysOk_set creg sg _ _ h2 h3
      apply hostKeysOk_set creg hg _ _ h4 h5 h6
    | some re =>
      exact wf_loadCompositeQuery creg st r sg hg pg ⟨re, []⟩ h h1 h2 h3 h4 h5 h6
        (by simp [hc]) (by intro kg hm; cases hm)

lemma wf_loadCompositePort (creg : String → Option Regexp) (st : LoadState) (r : Route)
    (sg : schemeRouteGroup) (hg : hostRouteGroup) (h : compositeKeysOk creg st)
    (h1 : (creg r.SourceScheme).isSome = true) (h2 : schemeKeysOk creg sg)
    (h3 : (creg r.SourceHost).isSome = true) (h4 : hostKeysOk creg hg) :
    compositeKeysOk creg (loadCompositePort creg st r sg hg).1 := by
  unfold loadCompositePort
  cases hp : alGet hg.portRoutes r.SourcePort with
  | some pg =>
    obtain ⟨hk, hpk⟩ := h4 _ (alGet_mem hp)
    exact wf_loadCompositePath creg st r sg hg pg h h1 h2 h3 h4 hk hpk
  | none =>
    cases hc : creg r.SourcePort with
    | none =>
      unfold writeHost
      apply compositeKeysOk_writeScheme creg st r _ h h1
      apply schemeKeysOk_set creg sg _ _ h2 h3 h4
    | some re =>
      exact wf_loadCompositePath creg st r sg hg ⟨re, []⟩ h h1 h2 h3 h4
        (by simp [hc]) (by intro kg hm; cases hm)

lemma wf_loadCompositeHost (creg : String → Option Regexp) (st : LoadState) (r : Route)
    (sg : schemeRouteGroup) (h : compositeKeysOk creg st)
    (h1 : (creg r.SourceScheme).isSome = true) (h2 : schemeKeysOk creg sg) :
    compositeKeysOk creg (loadCompositeHost creg st r sg).1 := by
  unfold loadCompositeHost
  cases hp : alGet sg.hostRoutes r.SourceHost with
  | some hg =>
    obtain ⟨hk, hpk⟩ := h2 _ (alGet_mem hp)
    exact wf_loadCompositePort creg st r sg hg h h1 h2 hk hpk
  | none =>
    cases hc : creg r.SourceHost with
    | none => exact compositeKeysOk_writeScheme creg st r _ h h1 h2
    | some re =>
      exact wf_loadCompositePort creg st r sg ⟨re, []⟩ h h1 h2
        (by simp [hc]) (by intro kg hm; cases hm)

lemma wf_loadComposite (creg : String → Option Regexp) (st : LoadState) (r : Route)
    (h : compositeKeysOk creg st) :
    compositeKeysOk creg (loadComposite creg st r).1 := by
  unfold loadComposite
  cases hs : alGet st.compositeRoutes r.SourceScheme with
  | some sg =>
    obtain ⟨hk, hsk⟩ := h _ (alGet_mem hs)
    exact wf_loadCompositeHost creg st r sg h hk hsk
  | none =>
    cases hc : creg r.SourceScheme with
    | none => exact h
    | some re =>
      exact wf_loadCompositeHost creg st r ⟨re, []⟩ h
        (by simp [hc]) (by intro kg hm; cases hm)

lemma urlRoutes_loadCompositeQuery (creg : String → Option Regexp) (st : LoadState) (r : Route)
    (sg : schemeRouteGroup) (hg : hostRouteGroup) (pg : portRouteGroup)
    (pathg : pathRouteGroup) :
    (loadCompositeQuery creg st r sg hg pg pathg).1.urlRoutes = st.urlRoutes := by
  unfold loadCompositeQuery
  cases alGet pathg.queryRoutes r.SourceQuery with
  | some qg => rfl
  | none => cases creg r.SourceQuery <;> rfl

lemma urlRoutes_loadCompositePath (creg : String → Option Regexp) (st : LoadState) (r : Route)
    (sg : schemeRouteGroup) (hg : hostRouteGroup) (pg : portRouteGroup) :
    (loadCompositePath creg st r sg hg pg).1.urlRoutes = st.urlRoutes := by
  unfold loadCompositePath
  cases alGet pg.pathRoutes r.SourcePath with
  | some pathg => exact urlRoutes_loadCompositeQuery creg st r sg hg pg pathg
  | none =>
    cases creg r.SourcePath with
    | none => rfl
    | some re => exact urlRoutes_loadCompositeQuery creg st r sg hg pg ⟨re, []⟩

lemma urlRoutes_loadCompositePort (creg : String → Option Regexp) (st : LoadState) (r : Route)
    (sg : schemeRouteGroup) (hg : hostRouteGroup) :
    (loadCompositePort creg st r sg hg).1.urlRoutes = st.urlRoutes := by
  unfold loadCompositePort
  cases alGet hg.portRoutes r.SourcePort with
  | some pg => exact urlRoutes_loadCompositePath creg st r sg hg pg
  | none =>
    cases creg r.SourcePort with
    | none => rfl
    | some re => exact urlRoutes_loadCompositePath creg st r sg hg ⟨re, []⟩

lemma urlRoutes_loadCompositeHost (creg : String → Option Regexp) (st : LoadState) (r : Route)
    (sg : schemeRouteGroup) :
    (loadCompositeHost creg st r sg).1.urlRoutes = st.urlRoutes := by
  unfold loadCompositeHost
  cases alGet sg.hostRoutes r.SourceHost with
  | some hg => exact urlRoutes_loadCompositePort creg st r sg hg
  | none =>
    cases creg r.SourceHost with
    | none => rfl
    | some re => exact urlRoutes_loadCompositePort creg st r sg ⟨re, []⟩

lemma urlRoutes_loadComposite (creg : String → Option Regexp) (st : LoadState) (r : Route) :
    (loadComposite creg st r).1.urlRoutes = st.urlRoutes := by
  unfold loadComposite
  cases alGet st.compositeRoutes r.SourceScheme with
  | some sg => exact urlRoutes_loadCompositeHost creg st r sg
  | none =>
    cases creg r.SourceScheme with
    | none => rfl
    | some re => exact urlRoutes_loadCompositeHost creg st r ⟨re, []⟩

lemma err_loadCompositeQuery (creg : String → Option Regexp) (st : LoadState) (r : Route)
    (sg : schemeRouteGroup) (hg : hostRouteGroup) (pg : portRouteGroup)
    (pathg : pathRouteGroup) (h8 : pathKeysOk creg pathg) :
    ((loadCompositeQuery creg st r sg hg pg pathg).2 = none ↔
      (creg r.SourceQuery).isSome = true) := by
  unfold loadCompositeQuery
  cases hq : alGet pathg.queryRoutes r.SourceQuery with
  | some qg => simpa using alGet_isSome_of_pathKeysOk h8 hq
  | none =>
    cases hc : creg r.SourceQuery with
    | none => simp [hc]
    | some re => simp [hc]

lemma err_loadCompositePath (creg : String → Option Regexp) (st : LoadState) (r : Route)
    (sg : schemeRouteGroup) (hg : hostRouteGroup) (pg : portRouteGroup)
    (h6 : portKeysOk creg pg) :
    ((loadCompositePath creg st r sg hg pg).2 = none ↔
      (creg r.SourcePath).isSome = true ∧ (creg r.SourceQuery).isSome = true) := by
  unfold loadCompositePath
  cases hp : alGet pg.pathRoutes r.SourcePath with
  | some pathg =>
    obtain ⟨hk, hpk⟩ := h6 _ (alGet_mem hp)
    rw [err_loadCompositeQuery creg st r sg hg pg pathg hpk]
    simp [hk]
  | none =>
    cases hc : creg r.SourcePath with
    | none => simp [hc]
    | some re =>
      rw [err_loadCompositeQuery creg st r sg hg pg ⟨re, []⟩ (by intro kg hm; cases hm)]
      simp [hc]

lemma err_loadCompositePort (creg : String → Option Regexp) (st : LoadState) (r : Route)
    (sg : schemeRouteGroup) (hg : hostRouteGroup) (h4 : hostKeysOk creg hg) :
    ((loadCompositePort creg st r sg hg).2 = none ↔
      (creg r.SourcePort).isSome = true ∧ (creg r.SourcePath).isSome = true ∧
        (creg r.SourceQuery).isSome = true) := by
  unfold loadCompositePort
  cases hp : alGet hg.portRoutes r.SourcePort with
  | some pg =>
    obtain ⟨hk, hpk⟩ := h4 _ (alGet_mem hp)
    rw [err_loadCompositePath creg st r sg hg pg hpk]
    simp [hk]
  | none =>
    cases hc : creg r.SourcePort with
    | none => simp [hc]
    | some re =>
      rw [err_loadCompositePath creg st r sg hg ⟨re, []⟩ (by intro kg hm; cases hm)]
      simp [hc]

lemma err_loadCompositeHost (creg : String → Option Regexp) (st : LoadState) (r : Route)
    (sg : schemeRouteGroup) (h2 : schemeKeysOk creg sg) :
    ((loadCompositeHost creg st r sg).2 = none ↔
      (creg r.SourceHost).isSome = true ∧ (creg r.SourcePort).isSome = true ∧
        (creg r.SourcePath).isSome = true ∧ (creg r.SourceQuery).isSome = true) := by
  unfold loadCompositeHost
  cases hp : alGet sg.hostRoutes r.SourceHost with
  | some hg =>
    obtain ⟨hk, hpk⟩ := h2 _ (alGet_mem hp)
    rw [err_loadCompositePort creg st r sg hg hpk]
    simp [hk]
  | none =>
    cases hc : creg r.SourceHost with
    | none => simp [hc]
    | some re =>
      rw [err_loadCompositePort creg st r sg ⟨re, []⟩ (by intro kg hm; cases hm)]
      simp [hc]

lemma err_loadComposite (creg : String → Option Regexp) (st : LoadState) (r : Route)
    (h : compositeKeysOk creg st) :
    ((loadComposite creg st r).2 = none ↔
      (creg r.SourceScheme).isSome = true ∧ (creg r.SourceHost).isSome = true ∧
        (creg r.SourcePort).isSome = true ∧ (creg r.SourcePath).isSome = true ∧
        (creg r.SourceQuery).isSome = true) := by
  unfold loadComposite
  cases hs : alGet st.compositeRoutes r.SourceScheme with
  | some sg =>
    obtain ⟨hk, hsk⟩ := h _ (alGet_mem hs)
    rw [err_loadCompositeHost creg st r sg hsk]
    simp [hk]
  | none =>
    cases hc : creg r.SourceScheme with
    | none => simp [hc]
    | some re =>
      rw [err_loadCompositeHost creg st r ⟨re, []⟩ (by intro kg hm; cases hm)]
      simp [hc]

lemma wf_loadRoute (creg : String → Option Regexp) (st : LoadState) (r0 : Route)
    (hwf : StateWF creg st) : StateWF creg (loadRoute creg st r0).1 := by
  obtain ⟨hurl, hcomp⟩ := hwf
  unfold loadRoute
  by_cases h1 : routeIDOk r0.ID
  case neg => simp only [h1, Bool.not_false, if_true]; exact ⟨hurl, hcomp⟩
  case pos =>
  simp only [h1, Bool.not_true, Bool.false_eq_true, if_false]
  by_cases h2 : r0.DestinationURL == ""
  case pos => simp only [h2, if_true]; exact ⟨hurl, hcomp⟩
  case neg =>
  simp only [h2, Bool.false_eq_true, if_false]
  by_cases h3 : (r0.RedirectStatus != 0 && (r0.RedirectStatus < 300 || r0.RedirectStatus > 399)) = true
  case pos => simp only [h3, if_true]; exact ⟨hurl, hcomp⟩
  case neg =>
  simp only [h3, if_false]
  by_cases h4 : (!hasSourceURL (statusNormalize r0) && !hasSourceComposite (statusNormalize r0)) = true
  case pos => simp only [h4, if_true]; exact ⟨hurl, hcomp⟩
  case neg =>
  simp only [h4, if_false]
  by_cases h5 : (hasSourceURL (statusNormalize r0) && hasSourceComposite (statusNormalize r0)) = true
  case pos => simp only [h5, if_true]; exact ⟨hurl, hcomp⟩
  case neg =>
  simp only [h5, if_false]
  simp only [Bool.false_eq_true, if_false]
  by_cases h6 : hasSourceURL (statusNormalize r0) = true
  case pos =>
    simp only [h6, if_true]
    cases hu : alGet st.urlRoutes (statusNormalize r0).SourceURL with
    | some g =>
      refine ⟨?_, hcomp⟩
      intro kg hm
      rcases mem_alInsert hm with hold | hnew
      · exact hurl kg hold
      · obtain ⟨hcr, hroutes⟩ := hurl _ (alGet_mem hu)
        rw [hnew]
        refine ⟨hcr, ?_⟩
        intro r' hr'
        rcases List.mem_append.mp hr' with ha | hb
        · exact hroutes r' ha
        · have : r' = statusNormalize r0 := by simpa using hb
          rw [this]
    | none =>
      cases hc : creg (statusNormalize r0).SourceURL with
      | none => exact ⟨hurl, hcomp⟩
      | some re =>
        refine ⟨?_, hcomp⟩
        intro kg hm
        rcases mem_alInsert hm with hold | hnew
        · exact hurl kg hold
        · rw [hnew]
          refine ⟨hc, ?_⟩
          intro r' hr'
          have : r' = statusNormalize r0 := by simpa using hr'
          rw [this]
  case neg =>
    simp only [h6, Bool.false_eq_true, if_false]
    constructor
    · intro kg hm
      rw [urlRoutes_loadComposite] at hm
      exact hurl kg hm
    · exact wf_loadComposite creg st (statusNormalize r0) hcomp

lemma err_loadRoute (creg : String → Option Regexp) (st : LoadState) (r0 : Route)
    (hwf : StateWF creg st) :
    ((loadRoute creg st r0).2 = none ↔ routeQualifies creg r0 = true) := by
  obtain ⟨hurl, hcomp⟩ := hwf
  unfold loadRoute
  by_cases h1 : routeIDOk r0.ID
  case neg => simp [routeQualifies, h1]
  case pos =>
  simp only [h1, Bool.not_true, Bool.false_eq_true, if_false]
  by_cases h2 : r0.DestinationURL == ""
  case pos => simp [routeQualifies, h2]
  case neg =>
  simp only [h2, Bool.false_eq_true, if_false]
  by_cases h3 : (r0.RedirectStatus != 0 && (r0.RedirectStatus < 300 || r0.RedirectStatus > 399)) = true
  case pos =>
    simp only [h3, if_true]
    constructor
    · intro h; exact Option.noConfusion h
    · intro hq
      exfalso
      simp only [routeQualifies, Bool.and_eq_true, Bool.or_eq_true, decide_eq_true_eq,
        beq_iff_eq, bne_iff_ne] at hq
      simp only [Bool.and_eq_true, Bool.or_eq_true, decide_eq_true_eq, bne_iff_ne] at h3
      have hstat : r0.RedirectStatus = 0 ∨
          300 ≤ r0.RedirectStatus ∧ r0.RedirectStatus ≤ 399 := by tauto
      obtain ⟨hnz, hout⟩ := h3
      rcases hstat with h | h <;> rcases hout with h' | h' <;> omega
  case neg =>
  simp only [h3, if_false]
  have h3' : (r0.RedirectStatus == 0 || (300 ≤ r0.RedirectStatus && r0.RedirectStatus ≤ 399)) = true := by
    simp only [Bool.and_eq_true, Bool.or_eq_true, bne_iff_ne, decide_eq_true_eq,
      beq_iff_eq] at h3 ⊢
    by_cases hz : r0.RedirectStatus = 0
    · exact Or.inl hz
    · right
      constructor <;> omega
  by_cases h4 : (!hasSourceURL (statusNormalize r0) && !hasSourceComposite (statusNormalize r0)) = true
  case pos =>
    simp only [h4, if_true]
    have hu : hasSourceURL r0 = false := by
      simp only [Bool.and_eq_true, Bool.not_eq_true'] at h4
      simpa using h4.1
    have hc : hasSourceComposite r0 = false := by
      simp only [Bool.and_eq_true, Bool.not_eq_true'] at h4
      simpa using h4.2
    simp [routeQualifies, hu, hc]
  case neg =>
  simp only [h4, if_false]
  by_cases h5 : (hasSourceURL (statusNormalize r0) && hasSourceComposite (statusNormalize r0)) = true
  case pos =>
    simp only [h5, if_true]
    have hu : hasSourceURL r0 = true := by
      simp only [Bool.and_eq_true] at h5
      simpa using h5.1
    have hc : hasSourceComposite r0 = true := by
      simp only [Bool.and_eq_true] at h5
      simpa using h5.2
    simp [routeQualifies, hu, hc]
  case neg =>
  simp only [h5, if_false]
  simp only [Bool.false_eq_true, if_false]
  by_cases h6 : hasSourceURL (statusNormalize r0) = true
  case pos =>
    simp only [h6, if_true]
    have hu : hasSourceURL r0 = true := by simpa using h6
    have hc : hasSourceComposite r0 = false := by
      simp only [Bool.and_eq_true] at h5
      rcases Bool.eq_false_or_eq_true (hasSourceComposite (statusNormalize r0)) with h | h
      · exact absurd ⟨h6, h⟩ h5
      · simpa using h
    cases hg : alGet st.urlRoutes (statusNormalize r0).SourceURL with
    | some g =>
      obtain ⟨hcr, -⟩ := hurl _ (alGet_mem hg)
      simp only [statusNormalize_SourceURL] at hcr
      simp [routeQualifies, h1, h2, h3', hu, hc, hcr]
    | none =>
      cases hco : creg (statusNormalize r0).SourceURL with
      | none =>
        simp only [statusNormalize_SourceURL] at hco
        simp [routeQualifies, hu, hc, hco]
      | some re =>
        simp only [statusNormalize_SourceURL] at hco
        simp [routeQualifies, h1, h2, h3', hu, hc, hco]
  case neg =>
    simp only [h6, Bool.false_eq_true, if_false]
    have hu : hasSourceURL r0 = false := by
      rcases Bool.eq_false_or_eq_true (hasSourceURL (statusNormalize r0)) with h | h
      · exact absurd h h6
      · simpa using h
    have hc : hasSourceComposite r0 = true := by
      rcases Bool.eq_false_or_eq_true (hasSourceComposite (statusNormalize r0)) with h | h
      · simpa using h
      · exfalso
        apply h4
        simp only [Bool.and_eq_true, Bool.not_eq_true']
        constructor
        · simpa using hu
        · exact h
    rw [err_loadComposite creg st (statusNormalize r0) hcomp]
    simp only [statusNormalize_SourceScheme, statusNormalize_SourceHost,
      statusNormalize_SourcePort, statusNormalize_SourcePath, statusNormalize_SourceQuery]
    simp only [routeQualifies, h1, h2, h3', hu, hc]
    simp [and_assoc]

lemma wf_emptyState (creg : String → Option Regexp) : StateWF creg emptyState :=
  ⟨fun kg hm => absurd hm (by simp [emptyState]), fun kg hm => absurd hm (by simp [emptyState])⟩

lemma loadAll_go (creg : String → Option Regexp) :
    ∀ (rs : List Route) (st : LoadState), StateWF creg st →
      StateWF creg
        (rs.foldl (fun st r => if r.Disabled then st else (loadRoute creg st r).1) st) ∧
      ∀ u, uidCount
          (rs.foldl (fun st r => if r.Disabled then st else (loadRoute creg st r).1) st) u =
        uidCount st u +
          rs.countP (fun r => !r.Disabled && routeQualifies creg r && r.uid == u) := by
  intro rs
  induction rs with
  | nil => intro st hwf; exact ⟨hwf, by simp⟩
  | cons r rest ih =>
    intro st hwf
    by_cases hd : r.Disabled
    · have step : (if r.Disabled then st else (loadRoute creg st r).1) = st := by simp [hd]
      obtain ⟨hwf', hcnt⟩ := ih st hwf
      simp only [List.foldl_cons, step]
      refine ⟨hwf', ?_⟩
      intro u
      rw [hcnt u]
      have : (fun r => !r.Disabled && routeQualifies creg r && r.uid == u) r = false := by
        simp [hd]
      simp [List.countP_cons, this]
    · have step : (if r.Disabled then st else (loadRoute creg st r).1) = (loadRoute creg st r).1 := by
        simp [hd]
      obtain ⟨hwf', hcnt⟩ := ih (loadRoute creg st r).1 (wf_loadRoute creg st r hwf)
      simp only [List.foldl_cons, step]
      refine ⟨hwf', ?_⟩
      intro u
      rw [hcnt u, cnt_loadRoute creg st r u]
      have herr := err_loadRoute creg st r hwf
      by_cases hq : routeQualifies creg r = true
      · have : (loadRoute creg st r).2 = none := herr.mpr hq
        simp [List.countP_cons, this, hd, hq]
        omega
      · have : ¬ (loadRoute creg st r).2 = none := fun h => hq (herr.mp h)
        have hq' : routeQualifies creg r = false := by
          rcases Bool.eq_false_or_eq_true (routeQualifies creg r) with h | h
          · exact absurd h hq
          · exact h
        simp [List.countP_cons, this, hq']

/-- Invariant of the fully loaded state. -/
lemma wf_loadAll (creg : String → Option Regexp) (rs : List Route) :
    StateWF creg (loadAll creg rs) :=
  (loadAll_go creg rs emptyState (wf_emptyState creg)).1

/-- Registration count of the fully loaded state. -/
lemma cnt_loadAll (creg : String → Option Regexp) (rs : List Route) (u : Nat) :
    uidCount (loadAll creg rs) u =
      rs.countP (fun r => !r.Disabled && routeQualifies creg r && r.uid == u) := by
  have h := (loadAll_go creg rs emptyState (wf_emptyState creg)).2 u
  have h0 : uidCount emptyState u = 0 := by simp [uidCount, emptyState, alSum]
  simpa [loadAll, h0] using h

/-! ## Lemmas: destination substitution -/

lemma substAux_cons (pairs : List (String × String)) (c : Char) (rest : List Char) :
    substAux pairs (c :: rest) =
      match pairs.find? (fun p => (tokChars p.1).isPrefixOf (c :: rest)) with
      | some p => p.2.data ++ substAux pairs (List.drop (tokChars p.1).length (c :: rest))
      | none => c :: substAux pairs rest := by
  rw [substAux]

lemma substAux_no_token (pairs : List (String × String)) :
    ∀ l, (∀ p ∈ pairs, occursIn (tokChars p.1) l = false) → substAux pairs l = l := by
  intro l
  induction l with
  | nil => intro _; rw [substAux]
  | cons c rest ih =>
    intro h
    rw [substAux_cons]
    cases hf : pairs.find? (fun p => (tokChars p.1).isPrefixOf (c :: rest)) with
    | some p =>
      exfalso
      have hmem := List.mem_of_find?_eq_some hf
      have hp : (tokChars p.1).isPrefixOf (c :: rest) = true := by
        simpa using List.find?_some hf
      have := h p hmem
      rw [occursIn, hp] at this
      simp at this
    | none =>
      show c :: substAux pairs rest = c :: rest
      congr 1
      apply ih
      intro p hp
      have := h p hp
      rw [occursIn] at this
      exact (Bool.or_eq_false_iff.mp this).2

/-- The grouped substitution leaves a template without any capture token
unchanged. -/
lemma replaceTokens_no_token (pairs : List (String × String)) (template : String)
    (h : ∀ p ∈ pairs, occursIn (tokChars p.1) template.data = false) :
    replaceTokens pairs template = template := by
  unfold replaceTokens
  rw [substAux_no_token pairs template.data h]

lemma wc_dollar : wordCharGo dollarChar = false := by decide

lemma wc_lbrace : wordCharGo lbraceChar = false := by decide

lemma wc_rbrace : wordCharGo rbraceChar = false := by decide

lemma find?_congruence {α : Type _} (p q : α → Bool) :
    ∀ (l : List α), (∀ x ∈ l, p x = q x) → l.find? p = l.find? q := by
  intro l
  induction l with
  | nil => intro _; rfl
  | cons a rest ih =>
    intro h
    have ha := h a (by simp)
    cases hq : q a with
    | true =>
      rw [List.find?_cons_of_pos _ (ha.trans hq), List.find?_cons_of_pos _ hq]
    | false =>
      rw [List.find?_cons_of_neg _ (by simp [ha, hq]), List.find?_cons_of_neg _ (by simp [hq])]
      exact ih (fun x hx => h x (by simp [hx]))

lemma all_takeWhile_wc (p : Char → Bool) : ∀ (l : List Char), (l.takeWhile p).all p = true := by
  intro l
  induction l with
  | nil => rfl
  | cons c rest ih =>
    cases hc : p c with
    | true => simpa [List.takeWhile, hc] using ih
    | false => simp [List.takeWhile, hc]

lemma drop_takeWhile_len (p : Char → Bool) :
    ∀ (l : List Char), l.drop ((l.takeWhile p).length) = l.dropWhile p := by
  intro l
  induction l with
  | nil => rfl
  | cons c rest ih =>
    cases hc : p c with
    | true => simpa [List.takeWhile, List.dropWhile, hc] using ih
    | false => simp [List.takeWhile, List.dropWhile, hc]

lemma run_takeWhile : ∀ (q rest : List Char), q.all wordCharGo = true →
    (q ++ rbraceChar :: rest).takeWhile wordCharGo = q ∧
    (q ++ rbraceChar :: rest).drop q.length = rbraceChar :: rest := by
  intro q
  induction q with
  | nil => intro rest _; simp [List.takeWhile, wc_rbrace]
  | cons c qrest ih =>
    intro rest hall
    rw [List.all_cons, Bool.and_eq_true] at hall
    obtain ⟨hc, hq⟩ := hall
    obtain ⟨h1, h2⟩ := ih rest hq
    constructor
    · simp [List.takeWhile, hc, h1]
    · simpa using h2

lemma drop_len_append {α : Type _} : ∀ (xs ys : List α) (k : Nat),
    List.drop (xs.length + k) (xs ++ ys) = List.drop k ys := by
  intro xs
  induction xs with
  | nil => intro ys k; simp
  | cons x rest ih =>
    intro ys k
    have : rest.length + 1 + k = (rest.length + k) + 1 := by omega
    simp only [List.length_cons, List.cons_append, this, List.drop_succ_cons]
    exact ih ys k

lemma tok_prefix_eq_name : ∀ (q name rest3 : List Char), q.all wordCharGo = true →
    name.all wordCharGo = true →
    (q ++ [rbraceChar]).isPrefixOf (name ++ rbraceChar :: rest3) = true → q = name := by
  intro q
  induction q with
  | nil =>
    intro name rest3 _ hn hp
    cases name with
    | nil => rfl
    | cons y yrest =>
      exfalso
      rw [List.all_cons, Bool.and_eq_true] at hn
      have hy := hn.1
      have hxy : (rbraceChar == y) = true := by
        simp only [List.nil_append, List.cons_append, List.isPrefixOf,
          Bool.and_eq_true] at hp
        exact hp.1
      have : rbraceChar = y := by simpa using hxy
      rw [← this] at hy
      rw [wc_rbrace] at hy
      cases hy
  | cons x qrest ih =>
    intro name rest3 hq hn hp
    rw [List.all_cons, Bool.and_eq_true] at hq
    obtain ⟨hx, hq'⟩ := hq
    cases name with
    | nil =>
      exfalso
      have hxy : (x == rbraceChar) = true := by
        simp only [List.nil_append, List.cons_append, List.isPrefixOf,
          Bool.and_eq_true] at hp
        exact hp.1
      have : x = rbraceChar := by simpa using hxy
      rw [this, wc_rbrace] at hx
      cases hx
    | cons y yrest =>
      rw [List.all_cons, Bool.and_eq_true] at hn
      obtain ⟨hy, hn'⟩ := hn
      simp only [List.cons_append, List.isPrefixOf, Bool.and_eq_true] at hp
      obtain ⟨hxy, htail⟩ := hp
      have hxy' : x = y := by simpa using hxy
      rw [hxy']
      congr 1
      exact ih yrest rest3 hq' hn' htail

lemma prefix_decomp {l1 l2 : List Char} (h : l1.isPrefixOf l2 = true) :
    ∃ t, l2 = l1 ++ t := by
  obtain ⟨t, ht⟩ := List.isPrefixOf_iff_prefix.mp h
  exact ⟨t, ht.symm⟩

lemma substAux_copy (pairs : List (String × String)) :
    ∀ (m r : List Char), (∀ c ∈ m, (c == dollarChar) = false) →
      substAux pairs (m ++ r) = m ++ substAux pairs r := by
  intro m
  induction m with
  | nil => intro r _; simp
  | cons c mrest ih =>
    intro r h
    have hc : (c == dollarChar) = false := h c (by simp)
    have hfind :
        pairs.find? (fun p => (tokChars p.1).isPrefixOf (c :: (mrest ++ r))) = none := by
      rw [List.find?_eq_none]
      intro p _
      simp only [tokChars, List.isPrefixOf, Bool.and_eq_true]
      intro hcontra
      have : dollarChar = c := by simpa using hcontra.1
      rw [← this] at hc
      simp at hc
    rw [List.cons_append, substAux_cons, hfind]
    show c :: substAux pairs (mrest ++ r) = c :: (mrest ++ substAux pairs r)
    congr 1
    exact ih r (fun x hx => h x (by simp [hx]))

lemma tok_isPrefixOf_eq (p1 : String) (hne : p1.data ≠ [])
    (hall : p1.data.all wordCharGo = true) (name rest3 : List Char)
    (hname : name.all wordCharGo = true) :
    (tokChars p1).isPrefixOf (dollarChar :: lbraceChar :: (name ++ rbraceChar :: rest3)) =
      (p1.data == name) := by
  by_cases heq : p1.data = name
  · rw [heq]
    have hrhs : (name == name) = true := by simp
    rw [hrhs]
    rw [List.isPrefixOf_iff_prefix]
    refine ⟨rest3, ?_⟩
    simp [tokChars, heq]
  · have hrhs : (p1.data == name) = false := by
      simp [heq]
    rw [hrhs]
    cases hlhs : (tokChars p1).isPrefixOf (dollarChar :: lbraceChar :: (name ++ rbraceChar :: rest3)) with
    | false => rfl
    | true =>
      exfalso
      apply heq
      apply tok_prefix_eq_name p1.data name rest3 hall hname
      simp only [tokChars, List.isPrefixOf, Bool.and_eq_true] at hlhs
      rw [List.isPrefixOf_iff_prefix]
      rw [List.isPrefixOf_iff_prefix] at hlhs
      obtain ⟨-, -, h3⟩ := hlhs
      have : p1.data ++ [rbraceChar] <+: p1.data ++ rbraceChar :: rest3 → True := fun _ => trivial
      obtain ⟨t, ht⟩ := h3
      exact ⟨t, by simpa using ht⟩

lemma caseB_find_none (pairs : List (String × String))
    (hw : ∀ p ∈ pairs, p.1.data ≠ [] ∧ p.1.data.all wordCharGo = true) (rest2 : List Char)
    (hB : ∀ (q t : List Char), q ≠ [] → q.all wordCharGo = true →
      rest2 ≠ q ++ rbraceChar :: t) :
    pairs.find? (fun p => (tokChars p.1).isPrefixOf (dollarChar :: lbraceChar :: rest2)) =
      none := by
  rw [List.find?_eq_none]
  intro p hp
  obtain ⟨hne, hall⟩ := hw p hp
  simp only [tokChars, List.isPrefixOf, Bool.and_eq_true]
  intro hcontra
  obtain ⟨-, -, h3⟩ := hcontra
  obtain ⟨t, ht⟩ := prefix_decomp h3
  have : rest2 = p.1.data ++ rbraceChar :: t := by simpa using ht
  exact hB p.1.data t hne hall this

lemma wc_not_dollar {x : Char} (h : wordCharGo x = true) : (x == dollarChar) = false := by
  cases hbe : x == dollarChar with
  | false => rfl
  | true =>
    exfalso
    have : x = dollarChar := by simpa using hbe
    rw [this, wc_dollar] at h
    cases h

lemma substEquiv_aux (pairs : List (String × String))
    (hw : ∀ p ∈ pairs, p.1.data ≠ [] ∧ p.1.data.all wordCharGo = true) :
    ∀ (n : Nat) (l : List Char), l.length ≤ n → substAux pairs l = substSpec pairs l := by
  intro n
  induction n with
  | zero =>
    intro l hl
    have hnil : l = [] := by
      cases l with
      | nil => rfl
      | cons c rest => simp at hl
    rw [hnil, substAux, substSpec]
  | succ n ih =>
    intro l hl
    cases l with
    | nil => rw [substAux, substSpec]
    | cons c rest =>
    cases rest with
    | nil =>
      have hfind : pairs.find? (fun p => (tokChars p.1).isPrefixOf [c]) = none := by
        rw [List.find?_eq_none]
        intro p _
        simp [tokChars, List.isPrefixOf]
      rw [substAux_cons, hfind]
      show c :: substAux pairs [] = substSpec pairs [c]
      rw [substAux, substSpec]
    | cons c2 rest2 =>
      have hlen2 : rest2.length + 2 ≤ n + 1 := by simpa using hl
      by_cases hc : c = dollarChar
      case neg =>
        have hfind :
            pairs.find? (fun p => (tokChars p.1).isPrefixOf (c :: c2 :: rest2)) = none := by
          rw [List.find?_eq_none]
          intro p _
          simp only [tokChars, List.isPrefixOf, Bool.and_eq_true]
          intro hcontra
          have hdc : dollarChar = c := by simpa using hcontra.1
          exact hc hdc.symm
        rw [substAux_cons, hfind]
        show c :: substAux pairs (c2 :: rest2) = substSpec pairs (c :: c2 :: rest2)
        rw [substSpec]
        have hcond : (c == dollarChar && c2 == lbraceChar) = false := by
          simp [hc]
        simp only [hcond, Bool.false_eq_true, if_false]
        congr 1
        have hlen' : (c2 :: rest2).length ≤ n := by simp; omega
        exact ih (c2 :: rest2) hlen'
      case pos =>
      subst hc
      by_cases hc2 : c2 = lbraceChar
      case neg =>
        have hfind :
            pairs.find? (fun p =>
              (tokChars p.1).isPrefixOf (dollarChar :: c2 :: rest2)) = none := by
          rw [List.find?_eq_none]
          intro p _
          simp only [tokChars, List.isPrefixOf, Bool.and_eq_true]
          intro hcontra
          have hdc : lbraceChar = c2 := by simpa using hcontra.2.1
          exact hc2 hdc.symm
        rw [substAux_cons, hfind]
        show dollarChar :: substAux pairs (c2 :: rest2) =
          substSpec pairs (dollarChar :: c2 :: rest2)
        rw [substSpec]
        have hcond : (dollarChar == dollarChar && c2 == lbraceChar) = false := by
          simp [hc2]
        simp only [hcond, Bool.false_eq_true, if_false]
        congr 1
        have hlen' : (c2 :: rest2).length ≤ n := by simp; omega
        exact ih (c2 :: rest2) hlen'
      case pos =>
      subst hc2
      have hcond : (dollarChar == dollarChar && lbraceChar == lbraceChar) = true := by simp
      have hnall : (rest2.takeWhile wordCharGo).all wordCharGo = true :=
        all_takeWhile_wc wordCharGo rest2
      have hlenlb : (lbraceChar :: rest2).length ≤ n := by simp; omega
      have hihs : substAux pairs (lbraceChar :: rest2) = substSpec pairs (lbraceChar :: rest2) :=
        ih (lbraceChar :: rest2) hlenlb
      cases hd : rest2.drop (rest2.takeWhile wordCharGo).length with
      | nil =>
        have hfind := caseB_find_none pairs hw rest2 (by
          intro q t hq hqall heq
          obtain ⟨h1, h2⟩ := run_takeWhile q t hqall
          rw [heq, h1, h2] at hd
          cases hd)
        rw [substAux_cons, hfind]
        show dollarChar :: substAux pairs (lbraceChar :: rest2) =
          substSpec pairs (dollarChar :: lbraceChar :: rest2)
        rw [substSpec]
        simp only [hcond, if_true]
        by_cases hne : (rest2.takeWhile wordCharGo).isEmpty = true
        · simp only [hne, if_true]
          congr 1
        · simp only [hne, Bool.false_eq_true, if_false]
          rw [hd]
          congr 1
      | cons c3 rest3 =>
        by_cases hc3 : c3 = rbraceChar
        case neg =>
          have hfind := caseB_find_none pairs hw rest2 (by
            intro q t hq hqall heq
            obtain ⟨h1, h2⟩ := run_takeWhile q t hqall
            rw [heq, h1, h2] at hd
            injection hd.symm with hh1 hh2
            exact hc3 hh1)
          rw [substAux_cons, hfind]
          show dollarChar :: substAux pairs (lbraceChar :: rest2) =
            substSpec pairs (dollarChar :: lbraceChar :: rest2)
          rw [substSpec]
          simp only [hcond, if_true]
          by_cases hne : (rest2.takeWhile wordCharGo).isEmpty = true
          · simp only [hne, if_true]
            congr 1
          · simp only [hne, Bool.false_eq_true, if_false]
            rw [hd]
            have hc3' : (c3 == rbraceChar) = false := by simp [hc3]
            simp only [hc3', Bool.false_eq_true, if_false]
            congr 1
        case pos =>
        subst hc3
        by_cases hne : (rest2.takeWhile wordCharGo).isEmpty = true
        · have hemp : rest2.takeWhile wordCharGo = [] := by
            simpa [List.isEmpty_iff] using hne
          have hfind := caseB_find_none pairs hw rest2 (by
            intro q t hq hqall heq
            obtain ⟨h1, h2⟩ := run_takeWhile q t hqall
            rw [heq, h1] at hemp
            exact hq hemp)
          rw [substAux_cons, hfind]
          show dollarChar :: substAux pairs (lbraceChar :: rest2) =
            substSpec pairs (dollarChar :: lbraceChar :: rest2)
          rw [substSpec]
          simp only [hcond, if_true, hne, if_true]
          congr 1
        · have hnemp : rest2.takeWhile wordCharGo ≠ [] := by
            simpa [List.isEmpty_iff] using hne
          have hdw : rest2.dropWhile wordCharGo = rbraceChar :: rest3 := by
            rw [← drop_takeWhile_len wordCharGo rest2]
            exact hd
          have hdecomp : rest2 = rest2.takeWhile wordCharGo ++ rbraceChar :: rest3 := by
            conv_lhs => rw [← List.takeWhile_append_dropWhile (p := wordCharGo) (l := rest2)]
            rw [hdw]
          have hlen3 : rest3.length ≤ n := by
            have := congrArg List.length hdecomp
            simp [List.length_append] at this
            omega
          have hpred : ∀ p ∈ pairs,
              ((tokChars p.1).isPrefixOf (dollarChar :: lbraceChar :: rest2)) =
                (p.1.data == rest2.takeWhile wordCharGo) := by
            intro p hp
            obtain ⟨hne', hall'⟩ := hw p hp
            conv_lhs => rw [hdecomp]
            exact tok_isPrefixOf_eq p.1 hne' hall' _ rest3 hnall
          have hfd := find?_congruence _ _ pairs hpred
          have hdropspec : rest2.drop ((rest2.takeWhile wordCharGo).length + 1) = rest3 := by
            rw [← List.drop_drop, hd]
            simp
          cases hfind : pairs.find? (fun p => p.1.data == rest2.takeWhile wordCharGo) with
          | some p =>
            have hpeq : p.1.data = rest2.takeWhile wordCharGo := by
              simpa using List.find?_some hfind
            have hlk : lookupVal pairs (rest2.takeWhile wordCharGo) = some p.2.data := by
              unfold lookupVal
              rw [hfind]
              rfl
            rw [substAux_cons, hfd, hfind]
            have hdropcode :
                List.drop (tokChars p.1).length (dollarChar :: lbraceChar :: rest2) = rest3 := by
              have hlentok : (tokChars p.1).length = (rest2.takeWhile wordCharGo).length + 3 := by
                simp [tokChars, hpeq]
              rw [hlentok]
              have hshape : (rest2.takeWhile wordCharGo).length + 3 =
                  ((rest2.takeWhile wordCharGo).length + 1) + 1 + 1 := by omega
              rw [hshape, List.drop_succ_cons, List.drop_succ_cons]
              exact hdropspec
            show p.2.data ++
                substAux pairs
                  (List.drop (tokChars p.1).length (dollarChar :: lbraceChar :: rest2)) =
              substSpec pairs (dollarChar :: lbraceChar :: rest2)
            rw [hdropcode]
            rw [substSpec]
            simp only [hcond, if_true, hne, Bool.false_eq_true, if_false]
            rw [hd]
            simp only [beq_self_eq_true, if_true, hlk, hdropspec]
            congr 1
            exact ih rest3 hlen3
          | none =>
            have hlk : lookupVal pairs (rest2.takeWhile wordCharGo) = none := by
              unfold lookupVal
              rw [hfind]
              rfl
            rw [substAux_cons, hfd, hfind]
            show dollarChar :: substAux pairs (lbraceChar :: rest2) =
              substSpec pairs (dollarChar :: lbraceChar :: rest2)
            have hsplit : lbraceChar :: rest2 =
                (lbraceChar :: (rest2.takeWhile wordCharGo ++ [rbraceChar])) ++ rest3 := by
              conv_lhs => rw [hdecomp]
              simp
            have hnod : ∀ x ∈ lbraceChar :: (rest2.takeWhile wordCharGo ++ [rbraceChar]),
                (x == dollarChar) = false := by
              intro x hx
              rcases List.mem_cons.mp hx with h | h
              · rw [h]; decide
              · rcases List.mem_append.mp h with h | h
                · exact wc_not_dollar (by
                    have := List.all_eq_true.mp hnall x h
                    simpa using this)
                · have : x = rbraceChar := by simpa using h
                  rw [this]; decide
            conv_lhs => rw [hsplit]
            rw [substAux_copy pairs _ rest3 hnod]
            rw [substSpec]
            simp only [hcond, if_true, hne, Bool.false_eq_true, if_false]
            rw [hd]
            simp only [beq_self_eq_true, if_true, hlk, hdropspec]
            have htok : tokChars ⟨rest2.takeWhile wordCharGo⟩ =
                dollarChar :: lbraceChar :: (rest2.takeWhile wordCharGo ++ [rbraceChar]) := rfl
            rw [htok]
            simp only [List.cons_append, List.append_assoc, List.nil_append]
            congr 1
            congr 1
            congr 1
            congr 1
            exact ih rest3 hlen3

/-- Equivalence of the handler's replacement pass with the spec-level
scanner, for capture names that are non-empty words (as Go named groups
are). -/
lemma substEquiv (pairs : List (String × String))
    (hw : ∀ p ∈ pairs, p.1.data ≠ [] ∧ p.1.data.all wordCharGo = true) (l : List Char) :
    substAux pairs l = substSpec pairs l :=
  substEquiv_aux pairs hw l.length l (le_refl _)

/-! ## Bridge: resolver specification over the loaded state -/

lemma grouped_resolver_spec (creg : String → Option Regexp) (rs : List Route) (url : String)
    (gs : List urlRouteGroup)
    (hperm : gs.Perm ((loadAll creg rs).urlRoutes.map Prod.snd)) :
    (∀ r, findBestRoute gs url = some r →
      r ∈ urlRegistered (loadAll creg rs) ∧ urlRouteMatches creg r url = true ∧
      ∀ r' ∈ urlRegistered (loadAll creg rs), urlRouteMatches creg r' url = true →
        r'.Priority ≤ r.Priority) ∧
    (findBestRoute gs url = none →
      ∀ r' ∈ urlRegistered (loadAll creg rs), urlRouteMatches creg r' url = false) := by
  have hwf := (wf_loadAll creg rs).1
  have hmemg : ∀ g ∈ gs, ∃ kg ∈ (loadAll creg rs).urlRoutes, kg.2 = g := by
    intro g hg
    have hmem : g ∈ (loadAll creg rs).urlRoutes.map Prod.snd := hperm.mem_iff.mp hg
    obtain ⟨kg, hkg, hkgg⟩ := List.mem_map.mp hmem
    exact ⟨kg, hkg, hkgg⟩
  have hmatch_iff : ∀ kg ∈ (loadAll creg rs).urlRoutes, ∀ r ∈ kg.2.routes,
      urlRouteMatches creg r url = groupMatches kg.2 url := by
    intro kg hkg r hr
    obtain ⟨hcr, hsrc⟩ := hwf kg hkg
    unfold urlRouteMatches groupMatches
    rw [hsrc r hr, hcr]
  have hspec := findBestRoute_spec gs url
  constructor
  · intro r hres
    obtain ⟨⟨g, hg, hgm, hrg⟩, hmax⟩ := hspec.1 r hres
    obtain ⟨kg, hkg, hkgg⟩ := hmemg g hg
    have hrkg : r ∈ kg.2.routes := by rw [hkgg]; exact hrg
    have hreg : r ∈ urlRegistered (loadAll creg rs) := by
      unfold urlRegistered
      exact List.mem_flatMap.mpr ⟨kg, hkg, hrkg⟩
    refine ⟨hreg, ?_, ?_⟩
    · rw [hmatch_iff kg hkg r hrkg, hkgg]
      exact hgm
    · intro r' hr' hm'
      obtain ⟨kg', hkg', hrkg'⟩ := List.mem_flatMap.mp hr'
      have hg' : kg'.2 ∈ gs := hperm.mem_iff.mpr (List.mem_map.mpr ⟨kg', hkg', rfl⟩)
      have hgm' : groupMatches kg'.2 url = true := by
        rw [← hmatch_iff kg' hkg' r' hrkg']
        exact hm'
      exact hmax kg'.2 hg' hgm' r' hrkg'
  · intro hres r' hr'
    obtain ⟨kg', hkg', hrkg'⟩ := List.mem_flatMap.mp hr'
    have hg' : kg'.2 ∈ gs := hperm.mem_iff.mpr (List.mem_map.mpr ⟨kg', hkg', rfl⟩)
    cases hgm : groupMatches kg'.2 url with
    | false =>
      rw [hmatch_iff kg' hkg' r' hrkg', hgm]
    | true =>
      have hempty := hspec.2 hres kg'.2 hg' hgm
      rw [hempty] at hrkg'
      cases hrkg'

/-! ## Claim theorems -/

/-- C10: In the flat-list variant, when several rules match the source URL
and share the maximal priority, the rule loaded earliest (lowest index in
the loaded-routes list) is selected, because a later route replaces the
current best only when its priority is strictly greater: the selected
index matches, has maximal priority among all matching indices, and every
earlier matching index has strictly smaller priority. -/
theorem c10_flat_tie_earliest (routes : List compiledRoute) (url : String) (i : Nat)
    (h : findBestRouteID routes url = some i) :
    i < routes.length ∧ flatMatchesAt routes url i = true ∧
    (∀ j, j < routes.length → flatMatchesAt routes url j = true →
      flatPriorityAt routes j ≤ flatPriorityAt routes i) ∧
    (∀ j, j < i → flatMatchesAt routes url j = true →
      flatPriorityAt routes j < flatPriorityAt routes i) := by
  have hspec := findBestRouteID_spec routes url
  rw [h] at hspec
  exact hspec

/-- Witness for C10 at a concrete tie: both routes match `http://x` with
priority 5 and the first-loaded one (index 0) is selected. -/
theorem c10_flat_tie_earliest_witness :
    0 < [wRouteA, wRouteB].length ∧
    flatMatchesAt [wRouteA, wRouteB] "http://x" 0 = true ∧
    (∀ j, j < [wRouteA, wRouteB].length →
      flatMatchesAt [wRouteA, wRouteB] "http://x" j = true →
      flatPriorityAt [wRouteA, wRouteB] j ≤ flatPriorityAt [wRouteA, wRouteB] 0) ∧
    (∀ j, j < 0 → flatMatchesAt [wRouteA, wRouteB] "http://x" j = true →
      flatPriorityAt [wRouteA, wRouteB] j < flatPriorityAt [wRouteA, wRouteB] 0) :=
  c10_flat_tie_earliest [wRouteA, wRouteB] "http://x" 0 (by decide)

/-- C1 counterexample: with one URL-form rule of priority 1 and one
composite rule of priority 9 whose five component patterns all match
`http://x.com/p` (and which is loaded: its registration count is 1), the
resolver returns the URL-form rule although the matching composite rule
has a greater priority — the claimed maximality over every matching rule
fails. -/
theorem c1_counterexample :
    findBestRoute ((loadAll cregDemo [rLowURL, rHighComposite]).urlRoutes.map Prod.snd)
        "http://x.com/p" = some (statusNormalize rLowURL) ∧
    uidCount (loadAll cregDemo [rLowURL, rHighComposite]) rHighComposite.uid = 1 ∧
    routeMatchesSpec cregDemo rHighComposite uParts = true ∧
    (statusNormalize rLowURL).Priority < rHighComposite.Priority := by
  refine ⟨?_, ?_, ?_, ?_⟩ <;> decide

/-- C1 (amended): the match resolver returns a rule only if that rule's
source pattern matches the source URL, and its priority is ≥ the priority
of every other *URL-form* rule whose pattern matches; with zero matching
rules it returns none, surfaced as a 404.  In the flat variant
(`main.go`), where every rule is URL-form, this is the original claim in
full; in the grouped variant it holds for every enumeration order of the
URL-group map, but composite rules are never candidates (see the
counterexample). -/
theorem c1_best_match_resolution :
    (∀ (routes : List compiledRoute) (url : String) (i : Nat),
      findBestRouteID routes url = some i →
        i < routes.length ∧ flatMatchesAt routes url i = true ∧
        ∀ j, j < routes.length → flatMatchesAt routes url j = true →
          flatPriorityAt routes j ≤ flatPriorityAt routes i) ∧
    (∀ (routes : List compiledRoute) (url : String),
      findBestRouteID routes url = none →
        ∀ j, j < routes.length → flatMatchesAt routes url j = false) ∧
    (∀ (routes : List compiledRoute) (url : String),
      (∀ j, j < routes.length → flatMatchesAt routes url j = false) →
        handleFlat routes url = .notFound) ∧
    (∀ (creg : String → Option Regexp) (rs : List Route) (url : String)
        (gs : List urlRouteGroup),
      gs.Perm ((loadAll creg rs).urlRoutes.map Prod.snd) →
        (∀ r, findBestRoute gs url = some r →
          r ∈ urlRegistered (loadAll creg rs) ∧ urlRouteMatches creg r url = true ∧
          ∀ r' ∈ urlRegistered (loadAll creg rs), urlRouteMatches creg r' url = true →
            r'.Priority ≤ r.Priority) ∧
        (findBestRoute gs url = none →
          ∀ r' ∈ urlRegistered (loadAll creg rs), urlRouteMatches creg r' url = false) ∧
        ((∀ r' ∈ urlRegistered (loadAll creg rs), urlRouteMatches creg r' url = false) →
          handleGrouped creg gs url = .notFound)) := by
  refine ⟨?_, ?_, ?_, ?_⟩
  · intro routes url i h
    have hspec := findBestRouteID_spec routes url
    rw [h] at hspec
    exact ⟨hspec.1, hspec.2.1, hspec.2.2.1⟩
  · intro routes url h
    have hspec := findBestRouteID_spec routes url
    rw [h] at hspec
    intro j hj
    cases hm : flatMatchesAt routes url j with
    | false => rfl
    | true => exact absurd hm (by simp [hspec j hj])
  · intro routes url h
    unfold handleFlat
    cases hres : findBestRouteID routes url with
    | none => rfl
    | some i =>
      exfalso
      have hspec := findBestRouteID_spec routes url
      rw [hres] at hspec
      have := h i hspec.1
      rw [hspec.2.1] at this
      cases this
  · intro creg rs url gs hperm
    have hb := grouped_resolver_spec creg rs url gs hperm
    refine ⟨hb.1, hb.2, ?_⟩
    intro h
    unfold handleGrouped
    cases hres : findBestRoute gs url with
    | none => rfl
    | some r =>
      exfalso
      obtain ⟨hreg, hm, -⟩ := hb.1 r hres
      have := h r hreg
      rw [hm] at this
      cases this

/-- Witness for C1 (amended) at concrete inputs: the flat scan on one
matching route, and the grouped resolver over the loaded Scenario-A
configuration with the identity enumeration. -/
theorem c1_best_match_resolution_witness :
    flatMatchesAt [wRouteA] "http://x" 0 = true ∧
    urlRouteMatches cregDemo (statusNormalize rScenAg) "http://x.com/p" = true := by
  have h := c1_best_match_resolution
  constructor
  · exact (h.1 [wRouteA] "http://x" 0 (by decide)).2.1
  · have hg := (h.2.2.2 cregDemo [rScenAg] "http://x.com/p"
      ((loadAll cregDemo [rScenAg]).urlRoutes.map Prod.snd) (List.Perm.refl _)).1
      (statusNormalize rScenAg) (by decide)
    exact hg.2.1

/-- C2 (code evaluated at the failing input): the composite rule with
scheme pattern `http` passes all load-time checks, is registered once in
the composite tree, and by the spec-level independent test all five of its
component patterns match `http://x.com/p`; yet the loaded URL-group map is
empty and the handler answers 404 — `findBestRoute` never consults the
composite tree ("TODO implement"). -/
theorem c2_composite_not_consulted :
    (loadRoute cregDemo emptyState rComposite).2 = none ∧
    uidCount (loadAll cregDemo [rComposite]) rComposite.uid = 1 ∧
    routeMatchesSpec cregDemo rComposite uParts = true ∧
    (loadAll cregDemo [rComposite]).urlRoutes.length = 0 ∧
    handleGrouped cregDemo ((loadAll cregDemo [rComposite]).urlRoutes.map Prod.snd)
      "http://x.com/p" = .notFound := by
  refine ⟨?_, ?_, ?_, ?_, ?_⟩ <;> decide

/-- C3 (code evaluated at the failing input): two rules with distinct
patterns, both matching `http://a`, tied at priority 5.  Enumerating the
loaded URL-group map in insertion order selects rule `a`; enumerating the
same map in the reverse order (both are enumerations of one Go map, whose
`range` order is unspecified) selects rule `b`. -/
theorem c3_tie_order_dependent :
    findBestRoute ((loadAll cregDemo [rTieA, rTieB]).urlRoutes.map Prod.snd) "http://a" =
      some (statusNormalize rTieA) ∧
    findBestRoute ((loadAll cregDemo [rTieA, rTieB]).urlRoutes.map Prod.snd).reverse
      "http://a" = some (statusNormalize rTieB) ∧
    statusNormalize rTieA ≠ statusNormalize rTieB ∧
    ((loadAll cregDemo [rTieA, rTieB]).urlRoutes.map Prod.snd).reverse.Perm
      ((loadAll cregDemo [rTieA, rTieB]).urlRoutes.map Prod.snd) := by
  refine ⟨by decide, by decide, by decide, List.reverse_perm _⟩

/-- C4 counterexample: for the matched rule with pattern
`^http://(?P<h>.*)$` and destination template `https://${h}/${zzz}`, the
name `zzz` has no captured value (the only captured name is `h`), yet the
resolved destination keeps the token `${zzz}` verbatim instead of
substituting the empty string as claimed. -/
theorem c4_counterexample :
    destinationGrouped reHttpCapH "https://${h}/${zzz}" "http://x" = "https://x/${zzz}" ∧
    (buildVarMatches reHttpCapH "http://x").map Prod.fst = ["h"] ∧
    "https://x/${zzz}" ≠ "https://x/" := by
  refine ⟨?_, by decide, by decide⟩
  simp +decide [destinationGrouped, replaceTokens, buildVarMatches, reHttpCapH,
    matchHttpCapAll, strStartsWith, substAux, tokChars, lookupVal, dollarChar,
    lbraceChar, rbraceChar, List.enum, List.enumFrom, List.filterMap]

lemma enumFrom_find_none (name : List Char) :
    ∀ (names : List String) (k : Nat), (∀ s ∈ names, s.data ≠ name) →
      (names.enumFrom k).find? (fun p => p.2.data == name) = none := by
  intro names
  induction names with
  | nil => intro k _; rfl
  | cons s rest ih =>
    intro k h
    have hs : (s.data == name) = false := by
      simpa using h s (List.mem_cons_self s rest)
    simp only [List.enumFrom, List.find?, hs]
    exact ih (k + 1) (fun s' hs' => h s' (List.mem_cons_of_mem _ hs'))

lemma goCapValue_unknown (caps names : List String) (name : List Char)
    (hnum : goCapNum name = none) (hn : ∀ s ∈ names, s.data ≠ name) :
    goCapValue caps names name = [] := by
  simp only [goCapValue, hnum, List.enum, enumFrom_find_none name names 0 hn]

lemma goExpand_unknown_name (caps names : List String) (name rest : List Char)
    (hne : name ≠ []) (hw : name.all wordCharGo = true)
    (hnum : goCapNum name = none) (hn : ∀ s ∈ names, s.data ≠ name) :
    goExpandAux caps names (dollarChar :: lbraceChar :: (name ++ rbraceChar :: rest)) =
      goExpandAux caps names rest := by
  obtain ⟨ht, hd⟩ := run_takeWhile name rest hw
  have hie : name.isEmpty = false := by
    cases name with
    | nil => exact absurd rfl hne
    | cons c t => rfl
  have hd1 : (name ++ rbraceChar :: rest).drop (name.length + 1) = rest := by
    simpa using drop_len_append name (rbraceChar :: rest) 1
  have hval : goCapValue caps names name = [] :=
    goCapValue_unknown caps names name hnum hn
  have h1 : (dollarChar != dollarChar) = false := by decide
  have h2 : (lbraceChar == dollarChar) = false := by decide
  have h3 : (lbraceChar == lbraceChar) = true := by decide
  have h4 : (rbraceChar == rbraceChar) = true := by decide
  simp only [goExpandAux, h1, h2, h3, h4, Bool.false_eq_true, if_false, if_true,
    ht, hie, hd, hd1, hval, List.nil_append]

/-- C4 (amended, scoped per variant): destination resolution never errors
on a `${name}` reference without a captured value, but the two variants
treat it differently.  Grouped variant: the handler substitutes exactly
the `${name}` tokens whose name is a captured (declared, named) group — a
captured name whose group did not participate is substituted with its
reported empty capture — and leaves a `${name}` token whose name is not a
captured name verbatim; formally the replacement pass coincides with the
spec-level scanner `substSpec`, for capture names that are non-empty
words, as Go group names are.  Flat variant: `ReplaceAllString` expands
the template per Go `Regexp.Expand`, which substitutes a `${name}`
reference whose name is neither a capture index nor a declared capture
name with the empty string, as the claim originally stated. -/
theorem c4_substitution_amended (re : Regexp) (url template : String)
    (hw : ∀ p ∈ buildVarMatches re url, p.1.data ≠ [] ∧ p.1.data.all wordCharGo = true) :
    (destinationGrouped re template url =
      ⟨substSpec (buildVarMatches re url) template.data⟩) ∧
    (∀ (caps names : List String) (name rest : List Char),
      name ≠ [] → name.all wordCharGo = true → goCapNum name = none →
      (∀ s ∈ names, s.data ≠ name) →
      goExpandAux caps names (dollarChar :: lbraceChar :: (name ++ rbraceChar :: rest)) =
        goExpandAux caps names rest) := by
  constructor
  · unfold destinationGrouped replaceTokens
    congr 1
    exact substEquiv (buildVarMatches re url) hw template.data
  · intro caps names name rest hne hwn hnum hn
    exact goExpand_unknown_name caps names name rest hne hwn hnum hn

/-- Witness for C4 (amended) at the counterexample's concrete input: the
grouped handler leaves `${zzz}` verbatim, while the flat expansion of the
same unknown reference against the same match's captures and names is the
empty string. -/
theorem c4_substitution_amended_witness :
    (destinationGrouped reHttpCapH "https://${h}/${zzz}" "http://x" =
      ⟨substSpec (buildVarMatches reHttpCapH "http://x") "https://${h}/${zzz}".data⟩) ∧
    goExpandAux ["http://x", "x"] ["", "h"]
        (dollarChar :: lbraceChar :: ("zzz".data ++ rbraceChar :: [])) =
      goExpandAux ["http://x", "x"] ["", "h"] [] := by
  have h := c4_substitution_amended reHttpCapH "http://x" "https://${h}/${zzz}" (by decide)
  exact ⟨h.1, h.2 ["http://x", "x"] ["", "h"] "zzz".data []
    (by decide) (by decide) (by decide) (by decide)⟩

/-- C6 counterexample: in the flat variant the destination is the source
URL with pattern matches replaced (`ReplaceAllString`), not the template:
the rule `^http://` → `https://x` (a template with no `${...}` token, no
`$` at all) matches `http://h/p`, and the resolved destination is
`https://xh/p`, not the template `https://x`. -/
theorem c6_counterexample :
    (match compileRoute cregDemo rPrefix6 with
      | .ok cr => cr.CompiledSourceURL.matchString "http://h/p"
      | .error _ => false) = true ∧
    occursIn [dollarChar] "https://x".data = false ∧
    (match compileRoute cregDemo rPrefix6 with
      | .ok cr => cr.CompiledSourceURL.replaceAllString "http://h/p" cr.toroute.DestinationURL
      | .error _ => "") = "https://xh/p" ∧
    "https://xh/p" ≠ "https://x" := by
  refine ⟨by decide, by decide, ?_, by decide⟩
  simp +decide [compileRoute, cregDemo, rPrefix6, reHttpPrefixPat, strStartsWith,
    goExpandAux, goExpandStr, replaceAllLit, dollarChar, lbraceChar, rbraceChar,
    routeIDOk, routeIDChar]

/-- C6 (amended): in the grouped variant, when the destination template
contains no `${name}` token for any captured name — in particular when it
contains no `${...}` token at all — the resolved destination equals the
template unchanged.  (In the flat variant the resolved destination is the
source URL with every pattern match replaced by the expanded template, so
it can differ from the template even then; see the counterexample.) -/
theorem c6_no_token_unchanged (re : Regexp) (template url : String)
    (h : ∀ p ∈ buildVarMatches re url, occursIn (tokChars p.1) template.data = false) :
    destinationGrouped re template url = template := by
  unfold destinationGrouped
  exact replaceTokens_no_token _ _ h

/-- Witness for C6 (amended): a literal destination template passes
through substitution unchanged. -/
theorem c6_no_token_unchanged_witness :
    destinationGrouped reHttpCapP "https://static.example" "http://x.com/p" =
      "https://static.example" :=
  c6_no_token_unchanged reHttpCapP "https://static.example" "http://x.com/p" (by decide)

/-- C5 (Scenario A): for the single rule with id `a`, source pattern
`^http://(.*)$` (flat variant, `${1}` reference form) or the equivalent
named-capture form `^http://(?P<p>.*)$` with `${p}` (grouped variant),
priority 1000 and unset redirect status, the request `http://x.com/p` is
answered with a redirect to `https://x.com/p` carrying the default status
302 in both variants. -/
theorem c5_scenario_a :
    (match compileRoute cregDemo rScenA with
      | .ok cr => handleFlat [cr] "http://x.com/p"
      | .error _ => .notFound) = .redirect "https://x.com/p" 302 ∧
    handleGrouped cregDemo ((loadAll cregDemo [rScenAg]).urlRoutes.map Prod.snd)
      "http://x.com/p" = .redirect "https://x.com/p" 302 := by
  constructor
  · have hdest : reHttpCapAll.replaceAllString "http://x.com/p" "https://${1}" =
        "https://x.com/p" := by
      simp +decide [reHttpCapAll, matchHttpCapAll, strStartsWith, goExpandStr, goExpandAux,
        goCapValue, goCapNum, goCapNumAux, dollarChar, lbraceChar, rbraceChar, wordCharGo]
    have hcomp : compileRoute cregDemo rScenA =
        .ok ⟨⟨"a", "^http://(.*)$", "https://${1}", 302, 1000⟩, reHttpCapAll⟩ := rfl
    rw [hcomp]
    show handleFlat [⟨⟨"a", "^http://(.*)$", "https://${1}", 302, 1000⟩, reHttpCapAll⟩]
      "http://x.com/p" = .redirect "https://x.com/p" 302
    unfold handleFlat
    have hfind : findBestRouteID
        [⟨⟨"a", "^http://(.*)$", "https://${1}", 302, 1000⟩, reHttpCapAll⟩]
        "http://x.com/p" = some 0 := by decide
    rw [hfind]
    have hget : (([⟨⟨"a", "^http://(.*)$", "https://${1}", 302, 1000⟩, reHttpCapAll⟩] :
        List compiledRoute).getD 0 default) =
        ⟨⟨"a", "^http://(.*)$", "https://${1}", 302, 1000⟩, reHttpCapAll⟩ := rfl
    simp +decide [hget, hdest]
  · have hdest : destinationGrouped reHttpCapP "https://${p}" "http://x.com/p" =
        "https://x.com/p" := by
      simp +decide [destinationGrouped, replaceTokens, buildVarMatches, reHttpCapP,
        matchHttpCapAll, strStartsWith, substAux, tokChars, lookupVal, dollarChar,
        lbraceChar, rbraceChar, List.enum, List.enumFrom, List.filterMap]
    unfold handleGrouped
    have hfind : findBestRoute ((loadAll cregDemo [rScenAg]).urlRoutes.map Prod.snd)
        "http://x.com/p" = some (statusNormalize rScenAg) := by decide
    rw [hfind]
    have hsrc : (statusNormalize rScenAg).SourceURL = "^http://(?P<p>.*)$" := by decide
    have hdst2 : (statusNormalize rScenAg).DestinationURL = "https://${p}" := by decide
    have hst : (statusNormalize rScenAg).RedirectStatus = 302 := by decide
    have hre : cregDemo "^http://(?P<p>.*)$" = some reHttpCapP := rfl
    show (let re := (cregDemo (statusNormalize rScenAg).SourceURL).getD default
      let destinationURL :=
        destinationGrouped re (statusNormalize rScenAg).DestinationURL "http://x.com/p"
      if parseRequestURIOk destinationURL = true then
        Outcome.redirect destinationURL (statusNormalize rScenAg).RedirectStatus
      else Outcome.malformed (statusNormalize rScenAg).ID) =
      Outcome.redirect "https://x.com/p" 302
    simp only [hsrc, hdst2, hst, hre, Option.getD_some]
    rw [hdest]
    have hparse : parseRequestURIOk "https://x.com/p" = true := by decide
    simp [hparse]

/-- C7: both compilers map `redirect_status` 0 to the default 302 and
reject every value outside their validity window with the hard error
"Invalid redirect status value" (once the checks that precede the status
check pass); the flat variant accepts exactly the library subset 301–308
unchanged, the grouped variant accepts exactly the range [300, 399]
unchanged (its `statusNormalize` leaves a non-zero accepted value as is),
and a successfully loaded route's status always lies in the accepted
set. -/
theorem c7_redirect_status :
    (∀ (creg : String → Option Regexp) (r : route) (cr : compiledRoute),
      compileRoute creg r = .ok cr →
        cr.toroute.RedirectStatus =
          (if r.RedirectStatus == 0 then 302 else r.RedirectStatus) ∧
        (r.RedirectStatus = 0 ∨ (301 ≤ r.RedirectStatus ∧ r.RedirectStatus ≤ 308))) ∧
    (∀ (creg : String → Option Regexp) (r : route),
      routeIDOk r.ID = true → r.SourceURL ≠ "" → (creg r.SourceURL).isSome = true →
      r.DestinationURL ≠ "" → r.RedirectStatus ≠ 0 →
      (r.RedirectStatus < 301 ∨ r.RedirectStatus > 308) →
        compileRoute creg r = .error errBadStatus) ∧
    (∀ (creg : String → Option Regexp) (st : LoadState) (r0 : Route),
      routeIDOk r0.ID = true → r0.DestinationURL ≠ "" → r0.RedirectStatus ≠ 0 →
      (r0.RedirectStatus < 300 ∨ r0.RedirectStatus > 399) →
        (loadRoute creg st r0).2 = some errBadStatus) ∧
    (∀ (r0 : Route), (statusNormalize r0).RedirectStatus =
      (if r0.RedirectStatus == 0 then 302 else r0.RedirectStatus)) ∧
    (∀ (creg : String → Option Regexp) (st : LoadState) (r0 : Route),
      (loadRoute creg st r0).2 = none →
        (r0.RedirectStatus = 0 ∨ (300 ≤ r0.RedirectStatus ∧ r0.RedirectStatus ≤ 399)) ∧
        uidCount (loadRoute creg st r0).1 r0.uid = uidCount st r0.uid + 1) := by
  refine ⟨?_, ?_, ?_, ?_, ?_⟩
  · intro creg r cr h
    unfold compileRoute at h
    by_cases h1 : routeIDOk r.ID
    case neg => simp [h1] at h
    case pos =>
    simp only [h1, Bool.not_true, Bool.false_eq_true, if_false] at h
    by_cases h2 : r.SourceURL == ""
    case pos => simp [h2] at h
    case neg =>
    simp only [h2, Bool.false_eq_true, if_false] at h
    cases hc : creg r.SourceURL with
    | none => rw [hc] at h; cases h
    | some re =>
      rw [hc] at h
      by_cases h3 : r.DestinationURL == ""
      case pos => simp [h3] at h
      case neg =>
      simp only [h3, Bool.false_eq_true, if_false] at h
      by_cases h4 : r.RedirectStatus == 0
      case pos =>
        simp only [h4, if_true] at h ⊢
        have : cr = ⟨{ r with RedirectStatus := defaultRedirectStatus }, re⟩ := by
          cases h; rfl
        rw [this]
        have h40 : r.RedirectStatus = 0 := by simpa using h4
        exact ⟨rfl, Or.inl h40⟩
      case neg =>
        simp only [h4, Bool.false_eq_true, if_false] at h ⊢
        by_cases h5 : (301 ≤ r.RedirectStatus && r.RedirectStatus ≤ 308) = true
        · simp only [h5, if_true] at h
          have : cr = ⟨r, re⟩ := by cases h; rfl
          rw [this]
          simp only [Bool.and_eq_true, decide_eq_true_eq] at h5
          exact ⟨rfl, Or.inr h5⟩
        · simp only [h5, Bool.false_eq_true, if_false] at h
          cases h
  · intro creg r h1 h2 h3 h4 h5 h6
    unfold compileRoute
    have h2' : (r.SourceURL == "") = false := by simpa using h2
    have h4' : (r.DestinationURL == "") = false := by simpa using h4
    have h5' : (r.RedirectStatus == 0) = false := by simpa using h5
    obtain ⟨re, hre⟩ := Option.isSome_iff_exists.mp h3
    have h6' : (301 ≤ r.RedirectStatus && r.RedirectStatus ≤ 308) = false := by
      rcases Bool.eq_false_or_eq_true
        ((301 ≤ r.RedirectStatus && r.RedirectStatus ≤ 308) : Bool) with hh | hh
      · exfalso
        simp only [Bool.and_eq_true, decide_eq_true_eq] at hh
        omega
      · exact hh
    rw [hre]
    simp [h1, h2', h4', h5', h6']
  · intro creg st r0 h1 h2 h3 h4
    unfold loadRoute
    have h2' : (r0.DestinationURL == "") = false := by simpa using h2
    have hcond : (r0.RedirectStatus != 0 &&
        (r0.RedirectStatus < 300 || r0.RedirectStatus > 399)) = true := by
      simp only [Bool.and_eq_true, Bool.or_eq_true, bne_iff_ne, decide_eq_true_eq]
      exact ⟨h3, h4⟩
    simp [h1, h2', hcond]
  · intro r0
    unfold statusNormalize
    by_cases h : r0.RedirectStatus == 0
    · simp [h, defaultRedirectStatus]
    · have h' : (r0.RedirectStatus == 0) = false := by simpa using h
      simp [h']
  · intro creg st r0 h
    constructor
    · by_contra hbad
      push_neg at hbad
      obtain ⟨hnz, hout⟩ := hbad
      have h1 : routeIDOk r0.ID = true := by
        by_contra h1
        have h1' : routeIDOk r0.ID = false := by
          rcases Bool.eq_false_or_eq_true (routeIDOk r0.ID) with hh | hh
          · exact absurd hh h1
          · exact hh
        unfold loadRoute at h
        rw [h1'] at h
        simp at h
      have h2 : (r0.DestinationURL == "") = false := by
        by_cases h2 : (r0.DestinationURL == "") = true
        · unfold loadRoute at h
          rw [h1, h2] at h
          simp at h
        · rcases Bool.eq_false_or_eq_true (r0.DestinationURL == "") with hh | hh
          · exact absurd hh h2
          · exact hh
      have hcond : (r0.RedirectStatus != 0 &&
          (r0.RedirectStatus < 300 || r0.RedirectStatus > 399)) = true := by
        simp only [Bool.and_eq_true, Bool.or_eq_true, bne_iff_ne, decide_eq_true_eq]
        refine ⟨hnz, ?_⟩
        omega
      unfold loadRoute at h
      rw [h1, h2, hcond] at h
      simp at h
    · have := cnt_loadRoute creg st r0 r0.uid
      rw [h] at this
      simpa using this

/-- Witness for C7: a flat rule with status 999 is rejected, a grouped
rule with status 999 is rejected, status 0 normalizes to 302, and a
successful load of a status-0 rule registers it with count 1. -/
theorem c7_redirect_status_witness :
    compileRoute cregDemo ⟨"a", "^http", "https://a.example", 999, 0⟩ =
      .error errBadStatus ∧
    (loadRoute cregDemo emptyState
      ⟨0, "a", false, "^http", "", "", "", "", "", "https://a.example", 999, 0⟩).2 =
      some errBadStatus ∧
    (statusNormalize rGood8).RedirectStatus = 302 ∧
    uidCount (loadRoute cregDemo emptyState rGood8).1 rGood8.uid =
      uidCount emptyState rGood8.uid + 1 := by
  have h := c7_redirect_status
  refine ⟨?_, ?_, ?_, ?_⟩
  · exact h.2.1 cregDemo ⟨"a", "^http", "https://a.example", 999, 0⟩ (by decide) (by decide)
      (by decide) (by decide) (by decide) (by decide)
  · exact h.2.2.1 cregDemo emptyState
      ⟨0, "a", false, "^http", "", "", "", "", "", "https://a.example", 999, 0⟩
      (by decide) (by decide) (by decide) (by decide)
  · have := h.2.2.2.1 rGood8
    rw [this]
    decide
  · exact (h.2.2.2.2 cregDemo emptyState rGood8 (by decide)).2

lemma countP_uid_nodup (creg : String → Option Regexp) :
    ∀ (rs : List Route), (rs.map Route.uid).Nodup → ∀ r ∈ rs,
      rs.countP (fun r' => !r'.Disabled && routeQualifies creg r' && r'.uid == r.uid) =
        (if !r.Disabled && routeQualifies creg r then 1 else 0) := by
  intro rs
  induction rs with
  | nil => intro _ r hr; cases hr
  | cons a rest ih =>
    intro hn r hr
    rw [List.map_cons, List.nodup_cons] at hn
    have hn' : (rest.map Route.uid).Nodup := hn.2
    have hnin : a.uid ∉ rest.map Route.uid := hn.1
    rcases List.mem_cons.mp hr with hra | hra
    · subst hra
      have hz : rest.countP
          (fun r' => !r'.Disabled && routeQualifies creg r' && r'.uid == r.uid) = 0 := by
        rw [List.countP_eq_zero]
        intro r' hr'
        have : r'.uid ≠ r.uid := by
          intro heq
          exact hnin (List.mem_map.mpr ⟨r', hr', heq⟩)
        simp [this]
      rw [List.countP_cons, hz]
      simp
    · have hne : a.uid ≠ r.uid := by
        intro heq
        exact hnin (heq ▸ List.mem_map.mpr ⟨r, hra, rfl⟩)
      have hhead :
          (!a.Disabled && routeQualifies creg a && a.uid == r.uid) = false := by
        simp [hne]
      rw [List.countP_cons]
      simp only [hhead, Bool.false_eq_true, if_false, Nat.add_zero]
      exact ih hn' r hra

/-- C8: with distinct route identities, every enabled route that passes
all load-time checks is registered in the index exactly once; a disabled
route or a route failing a check is never registered; a route identity
outside the configuration is never registered.  Counting is additive per
route, so a failing route does not affect the registration of the
others. -/
theorem c8_load_registration (creg : String → Option Regexp) (rs : List Route)
    (hn : (rs.map Route.uid).Nodup) :
    (∀ r ∈ rs, uidCount (loadAll creg rs) r.uid =
      (if !r.Disabled && routeQualifies creg r then 1 else 0)) ∧
    (∀ u, u ∉ rs.map Route.uid → uidCount (loadAll creg rs) u = 0) := by
  constructor
  · intro r hr
    rw [cnt_loadAll creg rs r.uid]
    exact countP_uid_nodup creg rs hn r hr
  · intro u hu
    rw [cnt_loadAll creg rs u]
    rw [List.countP_eq_zero]
    intro r' hr'
    have : r'.uid ≠ u := by
      intro heq
      exact hu (List.mem_map.mpr ⟨r', hr', heq⟩)
    simp [this]

/-- Witness for C8 (Scenario E flavour): loading a valid rule together
with a rule whose ID is illegal registers the valid rule exactly once and
the invalid rule not at all; an unknown identity is never registered. -/
theorem c8_load_registration_witness :
    uidCount (loadAll cregDemo [rGood8, rBad8]) rGood8.uid = 1 ∧
    uidCount (loadAll cregDemo [rGood8, rBad8]) rBad8.uid = 0 ∧
    uidCount (loadAll cregDemo [rGood8, rBad8]) 77 = 0 := by
  have h := c8_load_registration cregDemo [rGood8, rBad8] (by decide)
  refine ⟨?_, ?_, ?_⟩
  · have := h.1 rGood8 (by simp)
    rw [this]
    decide
  · have := h.1 rBad8 (by simp)
    rw [this]
    decide
  · exact h.2 77 (by decide)

/-- C9: once the checks preceding the source-form check pass (ID,
destination, redirect status), `loadRoute` fails with the "missing
source" diagnostic when both the single source-URL pattern and all five
composite component patterns are empty, fails with the "can't contain
both" diagnostic when both forms are present, and a route is accepted
only when exactly one of the two forms is present. -/
theorem c9_source_form (creg : String → Option Regexp) (st : LoadState) (r0 : Route)
    (hid : routeIDOk r0.ID = true) (hdest : r0.DestinationURL ≠ "")
    (hstat : r0.RedirectStatus = 0 ∨ (300 ≤ r0.RedirectStatus ∧ r0.RedirectStatus ≤ 399)) :
    (hasSourceURL r0 = false → hasSourceComposite r0 = false →
      (loadRoute creg st r0).2 = some errMissingSource) ∧
    (hasSourceURL r0 = true → hasSourceComposite r0 = true →
      (loadRoute creg st r0).2 = some errAmbiguousSource) ∧
    ((loadRoute creg st r0).2 = none →
      (hasSourceURL r0 = true ∧ hasSourceComposite r0 = false) ∨
      (hasSourceURL r0 = false ∧ hasSourceComposite r0 = true)) := by
  have hdest' : (r0.DestinationURL == "") = false := by simpa using hdest
  have hcond : (r0.RedirectStatus != 0 &&
      (r0.RedirectStatus < 300 || r0.RedirectStatus > 399)) = false := by
    rcases Bool.eq_false_or_eq_true (r0.RedirectStatus != 0 &&
      (r0.RedirectStatus < 300 || r0.RedirectStatus > 399)) with hh | hh
    · exfalso
      simp only [Bool.and_eq_true, Bool.or_eq_true, bne_iff_ne, decide_eq_true_eq] at hh
      obtain ⟨hnz, hout⟩ := hh
      rcases hstat with h | h <;> rcases hout with h' | h' <;> omega
    · exact hh
  refine ⟨?_, ?_, ?_⟩
  · intro hu hc
    unfold loadRoute
    simp [hid, hdest', hcond, hu, hc]
  · intro hu hc
    unfold loadRoute
    simp [hid, hdest', hcond, hu, hc]
  · intro h
    rcases Bool.eq_false_or_eq_true (hasSourceURL r0) with hu | hu <;>
      rcases Bool.eq_false_or_eq_true (hasSourceComposite r0) with hc | hc
    · exfalso
      unfold loadRoute at h
      simp [hid, hdest', hcond, hu, hc] at h
    · left; exact ⟨hu, hc⟩
    · right; exact ⟨hu, hc⟩
    · exfalso
      unfold loadRoute at h
      simp [hid, hdest', hcond, hu, hc] at h

/-- Witness for C9: a route with no source form at all is rejected as
missing, and a route carrying both a source URL and a scheme component is
rejected as ambiguous. -/
theorem c9_source_form_witness :
    (loadRoute cregDemo emptyState
      ⟨0, "m", false, "", "", "", "", "", "", "https://m.example", 0, 0⟩).2 =
      some errMissingSource ∧
    (loadRoute cregDemo emptyState
      ⟨0, "m2", false, "^http", "http", "", "", "", "", "https://m.example", 0, 0⟩).2 =
      some errAmbiguousSource := by
  constructor
  · exact (c9_source_form cregDemo emptyState
      ⟨0, "m", false, "", "", "", "", "", "", "https://m.example", 0, 0⟩
      (by decide) (by decide) (by left; decide)).1 (by decide) (by decide)
  · exact (c9_source_form cregDemo emptyState
      ⟨0, "m2", false, "^http", "http", "", "", "", "", "https://m.example", 0, 0⟩
      (by decide) (by decide) (by left; decide)).2.1 (by decide) (by decide)
